import Mathlib

/-!
WooCommerce REST client: request signing and dispatch.

A shallow embedding of `oauth.go` and `woocommerce.go`.

* A Go `string` is a finite sequence of bytes: `GoString := List Nat`, every
  element standing for one byte.  String literals of the source are written
  `ascii "..."`.
* A Go `map[string]string` is an association list with pairwise distinct keys;
  the order of the list stands for the (unspecified) iteration order of the map.
* The random source and the clock are explicit arguments.
* Library functions (`url.QueryEscape`, `sort.Strings`, `url.Parse`,
  `crypto/hmac`, `crypto/sha256`, `encoding/base64`, `strconv.FormatInt`,
  `fmt.Sprintf`) are modelled after the Go standard library (Go 1.22).
-/

namespace WooCommerce

/-! ## Strings -/

/-- A Go string: a sequence of bytes. -/
abbrev GoString := List Nat

/-- The bytes of an ASCII string literal. -/
def ascii (s : String) : GoString := s.toList.map Char.toNat

/-- The comparison `a <= b` of Go strings: bytewise lexicographic order. -/
def strLe : GoString → GoString → Bool
  | [], _ => true
  | _ :: _, [] => false
  | a :: as, b :: bs => decide (a < b) || (a == b && strLe as bs)

/-- The order used by `sort.Strings`, as a relation. -/
def StrLE (a b : GoString) : Prop := strLe a b = true

instance StrLE.decidableRel : DecidableRel StrLE := fun a b =>
  inferInstanceAs (Decidable (strLe a b = true))

/-- The function `sort.Strings`: the keys in ascending byte order.  Any sort over a total
order with `a <= b <= a → a = b` returns the same list, so insertion sort is used. -/
def sortStrings (keys : List GoString) : List GoString := List.insertionSort StrLE keys

/-- The function `strings.Join(elems, sep)`. -/
def stringsJoin : List GoString → GoString → GoString
  | [], _ => []
  | [a], _ => a
  | a :: b :: rest, sep => a ++ sep ++ stringsJoin (b :: rest) sep

/-- The function `strings.HasPrefix`. -/
def hasPrefix (s pre : GoString) : Bool := pre.isPrefixOf s

/-- The function `strings.HasSuffix`. -/
def hasSuffix (s suf : GoString) : Bool := suf.isSuffixOf s

/-- The part of `s` before the first byte `sep` (all of `s` when there is none):
`strings.Split(s, sep)[0]` and the first result of `strings.Cut(s, sep)`. -/
def cutBefore (sep : Nat) (s : GoString) : GoString := s.takeWhile (fun c => c != sep)

/-- The part of `s` after the first byte `sep` (empty when there is none): the second
result of `strings.Cut(s, sep)`. -/
def cutAfter (sep : Nat) (s : GoString) : GoString := (s.dropWhile (fun c => c != sep)).tail

/-- The function `strings.Split(s, sep)` for a one-byte separator. -/
def splitByte (sep : Nat) : GoString → List GoString
  | [] => [[]]
  | c :: cs =>
    if c = sep then [] :: splitByte sep cs
    else match splitByte sep cs with
      | [] => [[c]]
      | p :: ps => (c :: p) :: ps

/-! ## Percent-encoding (`net/url`) -/

/-- The encoding modes of `net/url`. -/
inductive Encoding where
  | encodePath
  | encodePathSegment
  | encodeHost
  | encodeZone
  | encodeUserPassword
  | encodeQueryComponent
  | encodeFragment
  deriving DecidableEq, Repr

/-- Letters and digits. -/
def isAlnum (c : Nat) : Bool :=
  (97 ≤ c && c ≤ 122) || (65 ≤ c && c ≤ 90) || (48 ≤ c && c ≤ 57)

/-- The function `shouldEscape` of `net/url`. -/
def shouldEscape (c : Nat) (mode : Encoding) : Bool :=
  if isAlnum c then false
  else if (mode = .encodeHost ∨ mode = .encodeZone) ∧
      c ∈ [33, 36, 38, 39, 40, 41, 42, 43, 44, 59, 61, 58, 91, 93, 60, 62, 34] then false
  else if c ∈ [45, 95, 46, 126] then false
  else if c ∈ [36, 38, 43, 44, 47, 58, 59, 61, 63, 64] ∧
      (mode = .encodePath ∨ mode = .encodePathSegment ∨ mode = .encodeUserPassword ∨
        mode = .encodeQueryComponent ∨ mode = .encodeFragment) then
    match mode with
    | .encodePath => c == 63
    | .encodePathSegment => c == 47 || c == 59 || c == 44 || c == 63
    | .encodeUserPassword => c == 64 || c == 47 || c == 63 || c == 58
    | .encodeQueryComponent => true
    | _ => false
  else if mode = .encodeFragment ∧ c ∈ [33, 40, 41, 42] then false
  else true

/-- The digit table `upperhex`, indexed by a nibble. -/
def upperhex (n : Nat) : Nat := if n % 16 < 10 then 48 + n % 16 else 55 + n % 16

/-- The function `url.QueryEscape`: letters, digits and `-_.~` stay, a space becomes `+`,
every other byte `c` becomes `%XX`. -/
def QueryEscape : GoString → GoString
  | [] => []
  | c :: cs =>
    if c = 32 then 43 :: QueryEscape cs
    else if shouldEscape c .encodeQueryComponent then
      37 :: upperhex (c / 16) :: upperhex (c % 16) :: QueryEscape cs
    else c :: QueryEscape cs

/-! ## SHA-256, HMAC and Base64 -/

/-- Addition of 32-bit words. -/
def add32 (a b : Nat) : Nat := (a + b) % 4294967296

/-- Rotation of a 32-bit word to the right. -/
def rotr32 (x n : Nat) : Nat := ((x >>> n) ||| (x <<< (32 - n))) % 4294967296

/-- The round constants of SHA-256. -/
def sha256K : List Nat :=
  [0x428a2f98, 0x71374491, 0xb5c0fbcf, 0xe9b5dba5, 0x3956c25b, 0x59f111f1, 0x923f82a4, 0xab1c5ed5,
   0xd807aa98, 0x12835b01, 0x243185be, 0x550c7dc3, 0x72be5d74, 0x80deb1fe, 0x9bdc06a7, 0xc19bf174,
   0xe49b69c1, 0xefbe4786, 0x0fc19dc6, 0x240ca1cc, 0x2de92c6f, 0x4a7484aa, 0x5cb0a9dc, 0x76f988da,
   0x983e5152, 0xa831c66d, 0xb00327c8, 0xbf597fc7, 0xc6e00bf3, 0xd5a79147, 0x06ca6351, 0x14292967,
   0x27b70a85, 0x2e1b2138, 0x4d2c6dfc, 0x53380d13, 0x650a7354, 0x766a0abb, 0x81c2c92e, 0x92722c85,
   0xa2bfe8a1, 0xa81a664b, 0xc24b8b70, 0xc76c51a3, 0xd192e819, 0xd6990624, 0xf40e3585, 0x106aa070,
   0x19a4c116, 0x1e376c08, 0x2748774c, 0x34b0bcb5, 0x391c0cb3, 0x4ed8aa4a, 0x5b9cca4f, 0x682e6ff3,
   0x748f82ee, 0x78a5636f, 0x84c87814, 0x8cc70208, 0x90befffa, 0xa4506ceb, 0xbef9a3f7, 0xc67178f2]

/-- The initial hash value of SHA-256. -/
def sha256Init : List Nat :=
  [0x6a09e667, 0xbb67ae85, 0x3c6ef372, 0xa54ff53a, 0x510e527f, 0x9b05688c, 0x1f83d9ab, 0x5be0cd19]

/-- A big-endian number from its bytes. -/
def beNat (bs : List Nat) : Nat := bs.foldl (fun acc b => acc * 256 + b % 256) 0

/-- The `n` low bytes of `x`, big-endian. -/
def beBytes : Nat → Nat → List Nat
  | 0, _ => []
  | n + 1, x => beBytes n (x / 256) ++ [x % 256]

/-- The message padded to a multiple of 64 bytes. -/
def sha256Pad (msg : List Nat) : List Nat :=
  msg ++ [128] ++ List.replicate ((119 - msg.length % 64) % 64) 0 ++ beBytes 8 (8 * msg.length)

/-- The 64 words of the message schedule of one block. -/
def sha256Schedule (block : List Nat) : List Nat :=
  (List.range 48).foldl
    (fun w t =>
      let w15 := w.getD (t + 1) 0
      let w2 := w.getD (t + 14) 0
      let s0 := rotr32 w15 7 ^^^ rotr32 w15 18 ^^^ (w15 >>> 3)
      let s1 := rotr32 w2 17 ^^^ rotr32 w2 19 ^^^ (w2 >>> 10)
      w ++ [add32 (add32 (add32 (w.getD t 0) s0) (w.getD (t + 9) 0)) s1])
    ((List.range 16).map (fun i => beNat ((block.drop (4 * i)).take 4)))

/-- One round of the compression function. -/
def sha256Round (s : List Nat) (kw : Nat × Nat) : List Nat :=
  match s with
  | [a, b, c, d, e, f, g, h] =>
    let s1 := rotr32 e 6 ^^^ rotr32 e 11 ^^^ rotr32 e 25
    let ch := (e &&& f) ^^^ ((4294967295 - e) &&& g)
    let t1 := add32 (add32 (add32 (add32 h s1) ch) kw.1) kw.2
    let s0 := rotr32 a 2 ^^^ rotr32 a 13 ^^^ rotr32 a 22
    let maj := (a &&& b) ^^^ (a &&& c) ^^^ (b &&& c)
    let t2 := add32 s0 maj
    [add32 t1 t2, a, b, c, add32 d t1, e, f, g]
  | _ => s

/-- The compression of one block into the hash state. -/
def sha256Block (h : List Nat) (block : List Nat) : List Nat :=
  List.zipWith add32 h ((sha256K.zip (sha256Schedule block)).foldl sha256Round h)

/-- The function `sha256.Sum256`. -/
def sha256 (msg : List Nat) : List Nat :=
  let p := sha256Pad msg
  let h := (List.range (p.length / 64)).foldl
    (fun h i => sha256Block h ((p.drop (64 * i)).take 64)) sha256Init
  h.flatMap (beBytes 4)

/-- HMAC with SHA-256 (`hmac.New(sha256.New, key)`, `Write`, `Sum`). -/
def hmacSHA256 (key msg : List Nat) : List Nat :=
  let k0 := if key.length > 64 then sha256 key else key
  let k := k0 ++ List.replicate (64 - k0.length) 0
  sha256 (k.map (fun b => b ^^^ 92) ++ sha256 (k.map (fun b => b ^^^ 54) ++ msg))

/-- The alphabet of `base64.StdEncoding`. -/
def base64Char (n : Nat) : Nat :=
  if n < 26 then 65 + n else if n < 52 then 71 + n else if n < 62 then n - 4
  else if n = 62 then 43 else 47

/-- The function `base64.StdEncoding.EncodeToString`. -/
def base64Std : List Nat → GoString
  | [] => []
  | [a] => [base64Char (a / 4), base64Char (a % 4 * 16), 61, 61]
  | [a, b] => [base64Char (a / 4), base64Char (a % 4 * 16 + b / 16), base64Char (b % 16 * 4), 61]
  | a :: b :: c :: rest =>
    base64Char (a / 4) :: base64Char (a % 4 * 16 + b / 16) ::
      base64Char (b % 16 * 4 + c / 64) :: base64Char (c % 64) :: base64Std rest

/-! ## Formatting -/

/-- The digit table of the verb `%x`, indexed by a nibble. -/
def lowerhex (n : Nat) : Nat := if n % 16 < 10 then 48 + n % 16 else 87 + n % 16

/-- The call `fmt.Sprintf("%x", b)` on a byte slice: two lowercase hex digits per byte. -/
def sprintfHex (b : List Nat) : GoString := b.flatMap (fun c => [lowerhex (c / 16), lowerhex (c % 16)])

/-- The decimal digits of a natural number, most significant first. -/
def natDecimal (n : Nat) : GoString := (Nat.toDigits 10 n).map Char.toNat

/-- The call `strconv.FormatInt(i, 10)`. -/
def FormatInt (i : Int) : GoString :=
  if i < 0 then 45 :: natDecimal i.natAbs else natDecimal i.natAbs

/-! ## Maps -/

/-- A Go `map[string]string`, as the list of its entries in iteration order. -/
abbrev Params := List (GoString × GoString)

/-- The keys of a map, in iteration order (`for k := range params`). -/
def Params.keys (m : Params) : List GoString := m.map Prod.fst

/-- The read `params[key]`: the empty string when the key is absent. -/
def Params.get (m : Params) (key : GoString) : GoString := (m.lookup key).getD []

/-- The statement `delete(params, key)`. -/
def Params.delete (m : Params) (key : GoString) : Params := m.filter (fun e => e.1 != key)

/-- The statement `params[key] = value`. -/
def Params.set (m : Params) (key value : GoString) : Params :=
  if m.any (fun e => e.1 == key) then m.map (fun e => if e.1 = key then (key, value) else e)
  else m ++ [(key, value)]

/-- A well-formed map has pairwise distinct keys. -/
def Params.WF (m : Params) : Prop := m.keys.Nodup

instance Params.decidableWF (m : Params) : Decidable m.WF :=
  inferInstanceAs (Decidable (List.Nodup _))

/-- A Go `url.Values` (`map[string][]string`), as the list of its entries. -/
abbrev Values := List (GoString × List GoString)

/-- The keys of a `url.Values`, in iteration order. -/
def Values.keys (v : Values) : List GoString := v.map Prod.fst

/-- The read `v[key]`: the empty slice when the key is absent. -/
def Values.get (v : Values) (key : GoString) : List GoString := (v.lookup key).getD []

/-- The method `Values.Set`: `v[key] = []string{value}`. -/
def Values.Set (v : Values) (key value : GoString) : Values :=
  if v.any (fun e => e.1 == key) then v.map (fun e => if e.1 = key then (key, [value]) else e)
  else v ++ [(key, [value])]

/-- The statement `m[key] = append(m[key], value)` of `parseQuery`. -/
def Values.append (v : Values) (key value : GoString) : Values :=
  if v.any (fun e => e.1 == key) then
    v.map (fun e => if e.1 = key then (key, e.2 ++ [value]) else e)
  else v ++ [(key, [value])]

/-- The method `Values.Encode`: the keys sorted, every value written as
`QueryEscape(k) + "=" + QueryEscape(v)`, with `&` before each piece but the first
(`if buf.Len() > 0`). -/
def Values.Encode (v : Values) : GoString :=
  ((sortStrings v.keys).flatMap
      (fun k => (v.get k).map (fun x => QueryEscape k ++ ascii "=" ++ QueryEscape x))).foldl
    (fun buf piece => if buf.length > 0 then buf ++ ascii "&" ++ piece else buf ++ piece) []

/-! ## URL parsing (`net/url`) -/

/-- The function `ishex`. -/
def ishex (c : Nat) : Bool :=
  (48 ≤ c && c ≤ 57) || (97 ≤ c && c ≤ 102) || (65 ≤ c && c ≤ 70)

/-- The function `unhex`. -/
def unhex (c : Nat) : Nat :=
  if 48 ≤ c ∧ c ≤ 57 then c - 48
  else if 97 ≤ c ∧ c ≤ 102 then c - 97 + 10
  else if 65 ≤ c ∧ c ≤ 70 then c - 65 + 10
  else 0

/-- The function `unescape` of `net/url`; `none` stands for an `EscapeError` or an
`InvalidHostError`. -/
def unescape (mode : Encoding) : GoString → Option GoString
  | [] => some []
  | c :: rest =>
    if c = 37 then
      match rest with
      | a :: b :: rest2 =>
        if ishex a && ishex b then
          if mode = .encodeHost ∧ unhex a < 8 ∧ ¬ (a = 50 ∧ b = 53) then none
          else if mode = .encodeZone ∧ ¬ (a = 50 ∧ b = 53) ∧ unhex a * 16 + unhex b ≠ 32 ∧
              shouldEscape (unhex a * 16 + unhex b) .encodeHost = true then none
          else (unescape mode rest2).map (fun t => (unhex a * 16 + unhex b) :: t)
        else none
      | _ => none
    else if c = 43 then
      (unescape mode rest).map (fun t => (if mode = .encodeQueryComponent then 32 else 43) :: t)
    else if (mode = .encodeHost ∨ mode = .encodeZone) ∧ c < 128 ∧
        shouldEscape c .encodeHost = true then none
    else (unescape mode rest).map (fun t => c :: t)

/-- The function `url.QueryUnescape`. -/
def QueryUnescape (s : GoString) : Option GoString := unescape .encodeQueryComponent s

/-- The function `parseQuery` behind `url.ParseQuery`, its error dropped as `URL.Query`
does: a piece with a semicolon, an empty piece or a piece with a bad escape is skipped. -/
def parseQuery (query : GoString) : Values :=
  (splitByte 38 query).foldl
    (fun m piece =>
      if 59 ∈ piece then m
      else if piece = [] then m
      else
        match QueryUnescape (cutBefore 61 piece) with
        | none => m
        | some key =>
          match QueryUnescape (cutAfter 61 piece) with
          | none => m
          | some value => m.append key value)
    []

/-- The parsed form of a URL (the fields of `url.URL` that parsing fills, user
information apart). -/
structure URL where
  Scheme : GoString
  Opaque : GoString
  Host : GoString
  Path : GoString
  ForceQuery : Bool
  RawQuery : GoString
  Fragment : GoString
  deriving DecidableEq, Repr

/-- The method `URL.Query`. -/
def URL.Query (u : URL) : Values := parseQuery u.RawQuery

/-- The function `stringContainsCTLByte`. -/
def stringContainsCTLByte (s : GoString) : Bool := s.any (fun b => b < 32 || b == 127)

/-- The loop of `getScheme` from index `i` on; `none` stands for the error
"missing protocol scheme". -/
def getSchemeFrom (rawURL : GoString) : Nat → GoString → Option (GoString × GoString)
  | _, [] => some ([], rawURL)
  | i, c :: cs =>
    if (97 ≤ c ∧ c ≤ 122) ∨ (65 ≤ c ∧ c ≤ 90) then getSchemeFrom rawURL (i + 1) cs
    else if (48 ≤ c ∧ c ≤ 57) ∨ c = 43 ∨ c = 45 ∨ c = 46 then
      if i = 0 then some ([], rawURL) else getSchemeFrom rawURL (i + 1) cs
    else if c = 58 then
      if i = 0 then none else some (rawURL.take i, cs)
    else some ([], rawURL)

/-- The function `getScheme`. -/
def getScheme (rawURL : GoString) : Option (GoString × GoString) :=
  getSchemeFrom rawURL 0 rawURL

/-- The function `strings.ToLower` on ASCII. -/
def toLower (s : GoString) : GoString := s.map (fun c => if 65 ≤ c ∧ c ≤ 90 then c + 32 else c)

/-- The function `strings.LastIndex` for a one-byte pattern. -/
def lastIndexByte (c : Nat) (s : GoString) : Option Nat :=
  (List.range s.length).reverse.find? (fun i => s.get? i == some c)

/-- The function `strings.Index`. -/
def indexOf (sub s : GoString) : Option Nat :=
  (List.range (s.length + 1)).find? (fun i => sub.isPrefixOf (s.drop i))

/-- The function `validOptionalPort`. -/
def validOptionalPort : GoString → Bool
  | [] => true
  | c :: rest => c == 58 && rest.all (fun b => 48 ≤ b && b ≤ 57)

/-- The function `validUserinfo`. -/
def validUserinfo (s : GoString) : Bool :=
  s.all (fun r => isAlnum r ||
    decide (r ∈ [45, 46, 95, 58, 126, 33, 36, 38, 39, 40, 41, 42, 43, 44, 59, 61, 37, 64]))

/-- The function `parseHost`. -/
def parseHost (host : GoString) : Option GoString :=
  if hasPrefix host (ascii "[") then
    match lastIndexByte 93 host with
    | none => none
    | some i =>
      if !validOptionalPort (host.drop (i + 1)) then none
      else
        match indexOf (ascii "%25") (host.take i) with
        | some zone =>
          (unescape .encodeHost (host.take zone)).bind fun host1 =>
          (unescape .encodeZone ((host.take i).drop zone)).bind fun host2 =>
          (unescape .encodeHost (host.drop i)).bind fun host3 =>
          some (host1 ++ host2 ++ host3)
        | none => unescape .encodeHost host
  else
    match lastIndexByte 58 host with
    | some i => if !validOptionalPort (host.drop i) then none else unescape .encodeHost host
    | none => unescape .encodeHost host

/-- The function `parseAuthority`, reduced to the host it returns. -/
def parseAuthority (authority : GoString) : Option GoString :=
  match lastIndexByte 64 authority with
  | none => parseHost authority
  | some i =>
    (parseHost (authority.drop (i + 1))).bind fun host =>
      let userinfo := authority.take i
      if !validUserinfo userinfo then none
      else if 58 ∉ userinfo then
        (unescape .encodeUserPassword userinfo).bind fun _ => some host
      else
        (unescape .encodeUserPassword (cutBefore 58 userinfo)).bind fun _ =>
        (unescape .encodeUserPassword (cutAfter 58 userinfo)).bind fun _ => some host

/-- The function `parse(rawURL, false)` of `net/url`. -/
def parse (rawURL : GoString) : Option URL :=
  if stringContainsCTLByte rawURL then none
  else if rawURL = ascii "*" then some ⟨[], [], [], ascii "*", false, [], []⟩
  else
    match getScheme rawURL with
    | none => none
    | some (scheme0, rest0) =>
      let scheme := toLower scheme0
      let forceQuery : Bool := hasSuffix rest0 (ascii "?") && rest0.count 63 == 1
      let rest := if forceQuery then rest0.take (rest0.length - 1) else cutBefore 63 rest0
      let rawQuery := if forceQuery then [] else cutAfter 63 rest0
      if !hasPrefix rest (ascii "/") ∧ scheme ≠ [] then
        some ⟨scheme, rest, [], [], forceQuery, rawQuery, []⟩
      else if !hasPrefix rest (ascii "/") ∧ 58 ∈ cutBefore 47 rest then none
      else if (scheme ≠ [] ∨ !hasPrefix rest (ascii "///")) ∧ hasPrefix rest (ascii "//") then
        let authority := cutBefore 47 (rest.drop 2)
        let rest2 := (rest.drop 2).drop authority.length
        (parseAuthority authority).bind fun host =>
        (unescape .encodePath rest2).bind fun path =>
        some ⟨scheme, [], host, path, forceQuery, rawQuery, []⟩
      else
        (unescape .encodePath rest).bind fun path =>
        some ⟨scheme, [], [], path, forceQuery, rawQuery, []⟩

/-- The function `url.Parse`: the fragment is cut off, the rest parsed, the fragment
unescaped. -/
def urlParse (rawURL : GoString) : Option URL :=
  match parse (cutBefore 35 rawURL) with
  | none => none
  | some url =>
    if cutAfter 35 rawURL = [] then some url
    else (unescape .encodeFragment (cutAfter 35 rawURL)).bind fun frag =>
      some { url with Fragment := frag }

/-- The steps of `parse` after the scheme and the query are split off, as a function
of the scheme, the rest, `ForceQuery` and `RawQuery`. -/
def parseRest (scheme rest : GoString) (forceQuery : Bool) (rawQuery : GoString) : Option URL :=
  if !hasPrefix rest (ascii "/") ∧ scheme ≠ [] then
    some ⟨scheme, rest, [], [], forceQuery, rawQuery, []⟩
  else if !hasPrefix rest (ascii "/") ∧ 58 ∈ cutBefore 47 rest then none
  else if (scheme ≠ [] ∨ !hasPrefix rest (ascii "///")) ∧ hasPrefix rest (ascii "//") then
    (parseAuthority (cutBefore 47 (rest.drop 2))).bind fun host =>
    (unescape .encodePath ((rest.drop 2).drop (cutBefore 47 (rest.drop 2)).length)).bind fun path =>
    some ⟨scheme, [], host, path, forceQuery, rawQuery, []⟩
  else
    (unescape .encodePath rest).bind fun path =>
    some ⟨scheme, [], [], path, forceQuery, rawQuery, []⟩

/-! ## `oauth.go` -/

/-- The OAuth1.0a client. -/
structure OAuth where
  URL : GoString
  ConsumerKey : GoString
  ConsumerSecret : GoString
  Version : GoString
  Method : GoString
  Timestamp : Int
  deriving DecidableEq, Repr

/-- The constructor `NewOAuth`. -/
def NewOAuth (url consumerKey consumerSecret version method : GoString) (timestamp : Int) :
    OAuth :=
  { URL := url, ConsumerKey := consumerKey, ConsumerSecret := consumerSecret,
    Version := version, Method := method, Timestamp := timestamp }

/-- The slice `keys` of `generateOAuthSignature`: the keys of the map, sorted. -/
def sortedKeys (params : Params) : List GoString := sortStrings params.keys

/-- The slice `paramStrings` of `generateOAuthSignature`, over a map from which
`oauth_signature` is already deleted. -/
def paramStrings (params : Params) : List GoString :=
  (sortedKeys params).map (fun key => QueryEscape key ++ ascii "=" ++ QueryEscape (params.get key))

/-- The local `paramString` of `generateOAuthSignature`. -/
def paramString (params : Params) : GoString := stringsJoin (paramStrings params) (ascii "&")

/-- The local `baseString` of `generateOAuthSignature`. -/
def OAuth.baseString (o : OAuth) (params : Params) (baseURL : GoString) : GoString :=
  o.Method ++ ascii "&" ++ QueryEscape baseURL ++ ascii "&" ++ QueryEscape (paramString params)

/-- The local `signingKey` of `generateOAuthSignature`. -/
def OAuth.signingKey (o : OAuth) : List Nat :=
  if o.Version ≠ ascii "v1" ∧ o.Version ≠ ascii "v2" then o.ConsumerSecret ++ [38]
  else o.ConsumerSecret

/-- The method `generateOAuthSignature`.  It returns the signature and the map as the
call leaves it: `delete(params, "oauth_signature")` acts on the caller's map. -/
def OAuth.generateOAuthSignature (o : OAuth) (params : Params) (baseURL : GoString) :
    GoString × Params :=
  let params := params.delete (ascii "oauth_signature")
  (base64Std (hmacSHA256 o.signingKey (o.baseString params baseURL)), params)

/-- The method `generateNonce`; `rnd i` is the result of the `i`-th call of
`rand.Intn(10)`. -/
def OAuth.generateNonce (_o : OAuth) (rnd : Nat → Nat) : GoString :=
  sprintfHex ((List.range 32).map (fun i => rnd i % 256))

/-- The map `params` of `GetOAuthURL` just before the signature is computed. -/
def OAuth.unsignedParams (o : OAuth) (rnd : Nat → Nat) (urlParts : WooCommerce.URL) : Params :=
  let params : Params := urlParts.Query.foldl (fun p kv => p.set kv.1 (kv.2.headD [])) []
  let params := params.set (ascii "oauth_consumer_key") o.ConsumerKey
  let params := params.set (ascii "oauth_timestamp") (FormatInt o.Timestamp)
  let params := params.set (ascii "oauth_nonce") (o.generateNonce rnd)
  params.set (ascii "oauth_signature_method") (ascii "HMAC-SHA256")

/-- The map `params` of `GetOAuthURL` after `params["oauth_signature"] = ...`. -/
def OAuth.signedParams (o : OAuth) (rnd : Nat → Nat) (urlParts : WooCommerce.URL) : Params :=
  let baseURL := cutBefore 63 o.URL
  let r := o.generateOAuthSignature (o.unsignedParams rnd urlParts) baseURL
  r.2.set (ascii "oauth_signature") r.1

/-- The method `GetOAuthURL`; the empty string is what it returns when `url.Parse`
fails. -/
def OAuth.GetOAuthURL (o : OAuth) (rnd : Nat → Nat) : GoString :=
  match urlParse o.URL with
  | none => []
  | some urlParts =>
    let baseURL := cutBefore 63 o.URL
    let params := o.signedParams rnd urlParts
    let query : Values := params.foldl (fun q kv => q.Set kv.1 kv.2) []
    baseURL ++ ascii "?" ++ query.Encode

/-! ## `woocommerce.go` -/

/-- The WooCommerce API client. -/
structure API where
  URL : GoString
  ConsumerKey : GoString
  ConsumerSecret : GoString
  WPAPI : Bool
  Version : GoString
  IsSSL : Bool
  Timeout : Int
  VerifySSL : Bool
  QueryStringAuth : Bool
  UserAgent : GoString
  deriving DecidableEq, Repr

/-- The constructor `NewAPI`; the fields it does not name (`IsSSL`, `QueryStringAuth`)
have Go's zero value `false`; `Timeout` is in nanoseconds. -/
def NewAPI (url consumerKey consumerSecret : GoString) : API :=
  { URL := url, ConsumerKey := consumerKey, ConsumerSecret := consumerSecret,
    WPAPI := true, Version := ascii "wc/v3", IsSSL := false, Timeout := 5 * 1000000000,
    VerifySSL := true, QueryStringAuth := false,
    UserAgent := ascii "WooCommerce-Go-REST-API/" ++ ascii "3.0.0" }

/-- The method `isSSL`. -/
def API.isSSL (api : API) : Bool := hasPrefix api.URL (ascii "https")

/-- The method `getURL`: the string it returns and the client as the call leaves it
(`api.URL += "/"`). -/
def API.getURL (api : API) (endpoint : GoString) : GoString × API :=
  let apiPath := if !api.WPAPI then ascii "wp-json" else ascii "wc-api"
  let api := if !hasSuffix api.URL (ascii "/") then { api with URL := api.URL ++ ascii "/" } else api
  (api.URL ++ apiPath ++ ascii "/" ++ api.Version ++ ascii "/" ++ endpoint, api)

/-- The method `getOAuthURL`. -/
def API.getOAuthURL (api : API) (url method : GoString) (oauthTimestamp : Int)
    (rnd : Nat → Nat) : GoString :=
  (NewOAuth url api.ConsumerKey api.ConsumerSecret api.Version method oauthTimestamp).GetOAuthURL rnd

/-- An `http.Request` as `request` prepares it: method, target URL, body (`none` for a
nil body) and header. -/
structure Request where
  Method : GoString
  URL : GoString
  Body : Option (List Nat)
  Header : Params
  deriving DecidableEq, Repr

/-- The token bytes of an HTTP method (`httpguts.IsTokenRune`). -/
def isTokenByte (c : Nat) : Bool :=
  isAlnum c || decide (c ∈ [33, 35, 36, 37, 38, 39, 42, 43, 45, 46, 94, 95, 96, 124, 126])

/-- The function `http.NewRequest`: it fails on a method that is not a token and on a
URL that `url.Parse` rejects; an empty method stands for `GET`. -/
def httpNewRequest (method url : GoString) (body : Option (List Nat)) : Option Request :=
  let method := if method = [] then ascii "GET" else method
  if !method.all isTokenByte then none
  else match urlParse url with
    | none => none
    | some _ => some { Method := method, URL := url, Body := body, Header := [] }

/-- The key under which `Header.Set` stores a header made of letters and `-`
(`textproto.CanonicalMIMEHeaderKey`). -/
def canonicalHeaderKey : Bool → GoString → GoString
  | _, [] => []
  | upper, c :: cs =>
    let c1 := if upper ∧ 97 ≤ c ∧ c ≤ 122 then c - 32
      else if ¬ upper ∧ 65 ≤ c ∧ c ≤ 90 then c + 32 else c
    c1 :: canonicalHeaderKey (c1 == 45) cs

/-- The method `Header.Set`. -/
def Request.setHeader (req : Request) (key value : GoString) : Request :=
  { req with Header := req.Header.set (canonicalHeaderKey true key) value }

/-- The method `Request.SetBasicAuth`. -/
def Request.SetBasicAuth (req : Request) (username password : GoString) : Request :=
  req.setHeader (ascii "Authorization")
    (ascii "Basic " ++ base64Std (username ++ ascii ":" ++ password))

/-- What `request` has built when it reaches `client.Do(req)`: the request (`none` when
`http.NewRequest` failed and `request` returned the error), the client and the caller's
`params` as the call leaves them. -/
structure Prepared where
  req : Option Request
  api : API
  params : Values
  deriving DecidableEq, Repr

/-- The method `request` up to the call of `client.Do`.  `data` is `none` for a nil
payload and the JSON encoding of the payload otherwise; `now` is `time.Now().Unix()`;
`rnd` is the random source of the nonce; `params` is a map that is not nil. -/
def API.request (api : API) (method endpoint : GoString) (data : Option (List Nat))
    (params : Values) (now : Int) (rnd : Nat → Nat) : Prepared :=
  let r := api.getURL endpoint
  let url := r.1
  let api := r.2
  let headers : Params := [(ascii "user-agent", api.UserAgent), (ascii "accept", ascii "application/json")]
  let reqBody : List Nat := data.getD []
  let headers := if data.isSome then
      headers.set (ascii "content-type") (ascii "application/json;charset=utf-8")
    else headers
  let finish (req : Request) : Request := headers.foldl (fun q kv => q.setHeader kv.1 kv.2) req
  if api.IsSSL && !api.QueryStringAuth then
    match httpNewRequest method url (some reqBody) with
    | none => ⟨none, api, params⟩
    | some req => ⟨some (finish (req.SetBasicAuth api.ConsumerKey api.ConsumerSecret)), api, params⟩
  else if api.IsSSL && api.QueryStringAuth then
    let params := params.Set (ascii "consumer_key") api.ConsumerKey
    let params := params.Set (ascii "consumer_secret") api.ConsumerSecret
    let url := url ++ ascii "?" ++ params.Encode
    match httpNewRequest method url none with
    | none => ⟨none, api, params⟩
    | some req => ⟨some (finish req), api, params⟩
  else
    let url := url ++ ascii "?" ++ params.Encode
    let url := api.getOAuthURL url method now rnd
    match httpNewRequest method url (some reqBody) with
    | none => ⟨none, api, params⟩
    | some req => ⟨some (finish req), api, params⟩

/-- The method `Get`. -/
def API.Get (api : API) (endpoint : GoString) (params : Values) (now : Int)
    (rnd : Nat → Nat) : Prepared :=
  api.request (ascii "GET") endpoint none params now rnd

/-! ## The parameter set of the specification -/

/-- The working parameter set of the specification before the signature is inserted, as
a function of the key: the four OAuth parameters override the query parameters of the
URL, a query parameter has its first value, and `oauth_signature` is not in the set. -/
def expectedParam (o : OAuth) (rnd : Nat → Nat) (u : URL) (k : GoString) : Option GoString :=
  if k = ascii "oauth_signature" then none
  else if k = ascii "oauth_consumer_key" then some o.ConsumerKey
  else if k = ascii "oauth_timestamp" then some (FormatInt o.Timestamp)
  else if k = ascii "oauth_nonce" then some (o.generateNonce rnd)
  else if k = ascii "oauth_signature_method" then some (ascii "HMAC-SHA256")
  else (u.Query.lookup k).map (fun values => values.headD [])


/-! ## The order of `sort.Strings` -/

theorem strLe_total (a b : GoString) : strLe a b = true ∨ strLe b a = true := by
  induction a generalizing b with
  | nil => left; simp [strLe]
  | cons x xs ih =>
    cases b with
    | nil => right; simp [strLe]
    | cons y ys =>
      simp only [strLe, Bool.or_eq_true, Bool.and_eq_true, decide_eq_true_eq, beq_iff_eq]
      rcases Nat.lt_trichotomy x y with h | h | h
      · left; left; exact h
      · rcases ih ys with h1 | h1
        · left; right; exact ⟨h, h1⟩
        · right; right; exact ⟨h.symm, h1⟩
      · right; left; exact h

theorem strLe_trans (a b c : GoString) (hab : strLe a b = true) (hbc : strLe b c = true) :
    strLe a c = true := by
  induction a generalizing b c with
  | nil => simp [strLe]
  | cons x xs ih =>
    cases b with
    | nil => simp [strLe] at hab
    | cons y ys =>
      cases c with
      | nil => simp [strLe] at hbc
      | cons z zs =>
        simp only [strLe, Bool.or_eq_true, Bool.and_eq_true, decide_eq_true_eq,
          beq_iff_eq] at hab hbc ⊢
        rcases hab with h1 | ⟨h1, h1'⟩
        · rcases hbc with h2 | ⟨h2, _⟩
          · left; omega
          · left; omega
        · rcases hbc with h2 | ⟨h2, h2'⟩
          · left; omega
          · right; exact ⟨by omega, ih ys zs h1' h2'⟩

theorem strLe_antisymm (a b : GoString) (hab : strLe a b = true) (hba : strLe b a = true) :
    a = b := by
  induction a generalizing b with
  | nil =>
    cases b with
    | nil => rfl
    | cons y ys => simp [strLe] at hba
  | cons x xs ih =>
    cases b with
    | nil => simp [strLe] at hab
    | cons y ys =>
      simp only [strLe, Bool.or_eq_true, Bool.and_eq_true, decide_eq_true_eq,
        beq_iff_eq] at hab hba
      rcases hab with h1 | ⟨h1, h1'⟩
      · rcases hba with h2 | ⟨h2, _⟩ <;> omega
      · rcases hba with h2 | ⟨_, h2'⟩
        · omega
        · rw [h1, ih ys h1' h2']

instance StrLE.isTotal : IsTotal GoString StrLE := ⟨strLe_total⟩

instance StrLE.isTrans : IsTrans GoString StrLE := ⟨strLe_trans⟩

instance StrLE.isAntisymm : IsAntisymm GoString StrLE := ⟨strLe_antisymm⟩

theorem sortStrings_perm (ks : List GoString) : (sortStrings ks).Perm ks :=
  List.perm_insertionSort StrLE ks

theorem sortStrings_sorted (ks : List GoString) : (sortStrings ks).Sorted StrLE :=
  List.sorted_insertionSort StrLE ks

theorem mem_sortStrings {ks : List GoString} {k : GoString} : k ∈ sortStrings ks ↔ k ∈ ks :=
  (sortStrings_perm ks).mem_iff

/-- The sorted list depends on the keys only as a multiset. -/
theorem sortStrings_congr {ks ks' : List GoString} (h : ks.Perm ks') :
    sortStrings ks = sortStrings ks' :=
  List.eq_of_perm_of_sorted (((sortStrings_perm ks).trans h).trans (sortStrings_perm ks').symm)
    (sortStrings_sorted ks) (sortStrings_sorted ks')

/-- A sorted arrangement of the keys is the one `sort.Strings` returns. -/
theorem sortStrings_unique {ks l : List GoString} (hp : l.Perm ks) (hs : l.Sorted StrLE) :
    sortStrings ks = l :=
  List.eq_of_perm_of_sorted ((sortStrings_perm ks).trans hp.symm) (sortStrings_sorted ks) hs


/-! ## Maps -/

theorem lookup_cons_eq {β : Type} (k k' : GoString) (v : β) (m : List (GoString × β)) :
    List.lookup k' ((k, v) :: m) = if k' = k then some v else List.lookup k' m := by
  by_cases h : k' = k
  · subst h; simp [List.lookup]
  · have : (k' == k) = false := by simpa using h
    simp [List.lookup, this, h]

theorem lookup_eq_none_iff_not_mem {β : Type} (k : GoString) (m : List (GoString × β)) :
    List.lookup k m = none ↔ k ∉ m.map Prod.fst := by
  induction m with
  | nil => simp
  | cons e m ih =>
    obtain ⟨a, b⟩ := e
    rw [lookup_cons_eq]
    by_cases h : k = a
    · simp [h]
    · simp [h, ih]

theorem lookup_append_of_not_mem {β : Type} (k : GoString) (m m' : List (GoString × β))
    (h : k ∉ m.map Prod.fst) : List.lookup k (m ++ m') = List.lookup k m' := by
  induction m with
  | nil => rfl
  | cons e m ih =>
    obtain ⟨a, b⟩ := e
    simp only [List.map_cons, List.mem_cons, not_or] at h
    rw [List.cons_append, lookup_cons_eq, if_neg h.1, ih h.2]

theorem lookup_append_of_mem {β : Type} (k : GoString) (m m' : List (GoString × β))
    (h : k ∈ m.map Prod.fst) : List.lookup k (m ++ m') = List.lookup k m := by
  induction m with
  | nil => simp at h
  | cons e m ih =>
    obtain ⟨a, b⟩ := e
    rw [List.cons_append, lookup_cons_eq, lookup_cons_eq]
    by_cases hk : k = a
    · simp [hk]
    · simp only [hk, if_false]
      apply ih
      simpa [hk] using h

theorem Params.any_key_iff (m : Params) (k : GoString) :
    m.any (fun e => e.1 == k) = true ↔ k ∈ m.keys := by
  simp [Params.keys]

theorem Params.keys_set_of_mem (m : Params) (k v : GoString) (h : k ∈ m.keys) :
    (m.set k v).keys = m.keys := by
  unfold Params.set
  rw [if_pos ((Params.any_key_iff m k).2 h)]
  simp only [Params.keys, List.map_map]
  apply List.map_congr_left
  intro e _
  by_cases he : e.1 = k <;> simp [he]

theorem Params.keys_set_of_not_mem (m : Params) (k v : GoString) (h : k ∉ m.keys) :
    (m.set k v).keys = m.keys ++ [k] := by
  unfold Params.set
  rw [if_neg (fun hc => h ((Params.any_key_iff m k).1 hc))]
  simp [Params.keys]

theorem Params.mem_keys_set (m : Params) (k v k' : GoString) :
    k' ∈ (m.set k v).keys ↔ k' = k ∨ k' ∈ m.keys := by
  by_cases h : k ∈ m.keys
  · rw [Params.keys_set_of_mem m k v h]
    constructor
    · exact Or.inr
    · rintro (rfl | h') <;> assumption
  · rw [Params.keys_set_of_not_mem m k v h]
    simp [or_comm]

theorem Params.WF_set (m : Params) (k v : GoString) (h : m.WF) : (m.set k v).WF := by
  unfold Params.WF at *
  by_cases hk : k ∈ m.keys
  · rw [Params.keys_set_of_mem m k v hk]; exact h
  · rw [Params.keys_set_of_not_mem m k v hk]
    exact List.Nodup.append h (List.nodup_singleton k) (by simpa using hk)

theorem Params.keys_delete (m : Params) (k : GoString) :
    (m.delete k).keys = m.keys.filter (fun x => x != k) := by
  simp only [Params.delete, Params.keys, List.filter_map]
  rfl

theorem Params.mem_keys_delete (m : Params) (k k' : GoString) :
    k' ∈ (m.delete k).keys ↔ k' ≠ k ∧ k' ∈ m.keys := by
  rw [Params.keys_delete]
  simp [and_comm]

theorem Params.WF_delete (m : Params) (k : GoString) (h : m.WF) : (m.delete k).WF := by
  unfold Params.WF at *
  rw [Params.keys_delete]
  exact h.filter _

theorem Params.WF_nil : Params.WF [] := List.nodup_nil

theorem lookup_map_replace (m : Params) (k v k' : GoString) :
    List.lookup k' (m.map (fun e => if e.1 = k then (k, v) else e)) =
      if k' = k then (if k ∈ m.keys then some v else none) else List.lookup k' m := by
  induction m with
  | nil => simp [Params.keys]
  | cons e m ih =>
    obtain ⟨a, b⟩ := e
    by_cases ha : a = k
    · subst ha
      simp only [List.map_cons, if_true]
      rw [lookup_cons_eq, lookup_cons_eq]
      by_cases h1 : k' = a
      · simp [h1, Params.keys]
      · simp only [h1, if_false]
        rw [ih, if_neg h1]
    · simp only [List.map_cons, ha, if_false]
      rw [lookup_cons_eq, lookup_cons_eq, ih]
      by_cases h1 : k' = a
      · have h2 : ¬ k' = k := fun h => ha (h1 ▸ h)
        simp [h1, h2, ha]
      · by_cases h2 : k' = k
        · subst h2
          have hiff : (k' ∈ a :: List.map Prod.fst m) ↔ k' ∈ List.map Prod.fst m := by
            rw [List.mem_cons]
            exact ⟨fun h => h.resolve_left h1, Or.inr⟩
          simp only [h1, Params.keys, List.map_cons, if_true, if_false]
          by_cases hm : k' ∈ List.map Prod.fst m
          · rw [if_pos hm, if_pos (hiff.2 hm)]
          · rw [if_neg hm, if_neg (fun h => hm (hiff.1 h))]
        · simp [h1, h2]

theorem Params.lookup_set (m : Params) (k v k' : GoString) :
    (m.set k v).lookup k' = if k' = k then some v else m.lookup k' := by
  unfold Params.set
  split
  · rename_i hany
    have hmem := (Params.any_key_iff m k).1 hany
    rw [lookup_map_replace, if_pos hmem]
  · rename_i hany
    have hmem : k ∉ m.keys := fun hc => hany ((Params.any_key_iff m k).2 hc)
    by_cases h1 : k' = k
    · subst h1
      rw [lookup_append_of_not_mem _ _ _ hmem, lookup_cons_eq]
      simp
    · simp only [h1, if_false]
      by_cases h2 : k' ∈ m.keys
      · exact lookup_append_of_mem _ _ _ h2
      · rw [lookup_append_of_not_mem _ _ _ h2, lookup_cons_eq, if_neg h1]
        simp only [List.lookup]
        exact ((lookup_eq_none_iff_not_mem k' m).2 h2).symm

theorem Params.lookup_delete (m : Params) (k k' : GoString) :
    (m.delete k).lookup k' = if k' = k then none else m.lookup k' := by
  induction m with
  | nil => simp [Params.delete]
  | cons e m ih =>
    obtain ⟨a, b⟩ := e
    unfold Params.delete at ih ⊢
    by_cases ha : a = k
    · subst ha
      simp only [List.filter_cons, bne_self_eq_false, Bool.false_eq_true, if_false]
      rw [ih, lookup_cons_eq]
      by_cases h1 : k' = a <;> simp [h1]
    · have : (a != k) = true := by simpa using ha
      simp only [List.filter_cons, this, if_true]
      rw [lookup_cons_eq, lookup_cons_eq, ih]
      by_cases h1 : k' = a
      · have : ¬ k' = k := fun h => ha (h1 ▸ h)
        simp [h1, this, ha]
      · simp [h1]

theorem Params.get_set (m : Params) (k v k' : GoString) :
    (m.set k v).get k' = if k' = k then v else m.get k' := by
  unfold Params.get
  rw [Params.lookup_set]
  split <;> rfl

theorem Params.delete_of_not_mem (m : Params) (k : GoString) (h : k ∉ m.keys) :
    m.delete k = m := by
  unfold Params.delete
  rw [List.filter_eq_self]
  intro e he
  simp only [bne_iff_ne, ne_eq]
  intro hk
  exact h (by rw [← hk]; exact List.mem_map_of_mem Prod.fst he)

theorem filter_map_replace (m : Params) (k v : GoString) :
    List.filter (fun e => e.1 != k) (m.map (fun e => if e.1 = k then (k, v) else e)) =
      List.filter (fun e => e.1 != k) m := by
  induction m with
  | nil => rfl
  | cons e m ih =>
    by_cases he : e.1 = k
    · simp [List.filter_cons, he, ih]
    · simp [List.filter_cons, he, ih]

theorem Params.delete_set (m : Params) (k v : GoString) :
    (m.set k v).delete k = m.delete k := by
  unfold Params.set Params.delete
  split
  · exact filter_map_replace m k v
  · simp [List.filter_append]


/-! ## Cutting and escaping -/

theorem cutBefore_append (sep : Nat) (a x : GoString) (h : sep ∉ a) :
    cutBefore sep (a ++ sep :: x) = a := by
  induction a with
  | nil => simp [cutBefore]
  | cons c cs ih =>
    simp only [List.mem_cons, not_or] at h
    have hc : (c != sep) = true := by simpa using fun e => h.1 e.symm
    have ih' := ih h.2
    unfold cutBefore at ih' ⊢
    rw [List.cons_append, List.takeWhile_cons, hc, if_pos rfl, ih']

theorem cutAfter_append (sep : Nat) (a x : GoString) (h : sep ∉ a) :
    cutAfter sep (a ++ sep :: x) = x := by
  induction a with
  | nil => simp [cutAfter]
  | cons c cs ih =>
    simp only [List.mem_cons, not_or] at h
    have hc : (c != sep) = true := by simpa using fun e => h.1 e.symm
    have ih' := ih h.2
    unfold cutAfter at ih' ⊢
    rw [List.cons_append, List.dropWhile_cons, hc, if_pos rfl, ih']

theorem not_mem_cutBefore (sep : Nat) (s : GoString) : sep ∉ cutBefore sep s := by
  intro h
  have := List.mem_takeWhile_imp h
  simp at this

theorem upperhex_ne_eq (n : Nat) : upperhex n ≠ 61 := by
  unfold upperhex
  split <;> omega

theorem eq_not_mem_QueryEscape (s : GoString) : 61 ∉ QueryEscape s := by
  induction s with
  | nil => simp [QueryEscape]
  | cons c cs ih =>
    unfold QueryEscape
    split
    · simp [ih]
    · split
      · simp only [List.mem_cons, not_or]
        exact ⟨by decide, (upperhex_ne_eq _).symm, (upperhex_ne_eq _).symm, ih⟩
      · rename_i h1 h2
        simp only [List.mem_cons, not_or]
        refine ⟨?_, ih⟩
        intro hc
        apply h2
        rw [← hc]
        decide

/-- An escaped string without `%` and `+` is the string itself. -/
theorem QueryEscape_eq_self (s : GoString) (h37 : 37 ∉ QueryEscape s) (h43 : 43 ∉ QueryEscape s) :
    QueryEscape s = s := by
  induction s with
  | nil => rfl
  | cons c cs ih =>
    unfold QueryEscape at h37 h43 ⊢
    split
    · rename_i hc
      rw [if_pos hc] at h43
      simp at h43
    · rename_i hc
      rw [if_neg hc] at h37 h43
      split
      · rename_i he
        rw [if_pos he] at h37
        simp at h37
      · rename_i he
        rw [if_neg he] at h37 h43
        simp only [List.mem_cons, not_or] at h37 h43
        rw [ih h37.2 h43.2]

/-- A pair `QueryEscape(k) + "=" + ...` that starts with `lit + "="`, for a literal
without `=`, `%` and `+`, is the pair of the key `lit`. -/
theorem key_of_pair_start (lit k rest : GoString) (h61 : 61 ∉ lit) (h37 : 37 ∉ lit)
    (h43 : 43 ∉ lit) (h : (lit ++ [61]) <+: (QueryEscape k ++ ascii "=" ++ rest)) : k = lit := by
  obtain ⟨t, ht⟩ := h
  have h1 : cutBefore 61 (lit ++ 61 :: t) = lit := cutBefore_append 61 lit t h61
  have h2 : cutBefore 61 (QueryEscape k ++ 61 :: rest) = QueryEscape k :=
    cutBefore_append 61 _ rest (eq_not_mem_QueryEscape k)
  have h3 : lit ++ 61 :: t = QueryEscape k ++ 61 :: rest := by
    have : QueryEscape k ++ ascii "=" ++ rest = QueryEscape k ++ 61 :: rest := by
      simp [ascii]
    rw [← this, ← ht]
    simp
  rw [h3, h2] at h1
  rw [← h1] at h37 h43
  rw [← QueryEscape_eq_self k h37 h43, h1]

/-! ## The signature -/

theorem mem_lookup_iff (m : Params) (h : m.WF) (k v : GoString) :
    (k, v) ∈ m ↔ m.lookup k = some v := by
  induction m with
  | nil => simp
  | cons e m ih =>
    obtain ⟨a, b⟩ := e
    have hnd : a ∉ Params.keys m ∧ (Params.keys m).Nodup := by
      simpa [Params.WF, Params.keys] using h
    rw [lookup_cons_eq, List.mem_cons]
    by_cases hk : k = a
    · subst hk
      simp only [if_true, Option.some.injEq, Prod.mk.injEq, true_and]
      constructor
      · rintro (h1 | h1)
        · exact h1.symm
        · exact absurd (List.mem_map_of_mem Prod.fst h1) hnd.1
      · intro h1; exact Or.inl h1.symm
    · simp only [hk, if_false, Prod.mk.injEq, false_and, false_or]
      exact ih hnd.2

theorem Params.WF_of_perm {p q : Params} (hp : p.Perm q) (h : p.WF) : q.WF :=
  (List.Perm.nodup_iff (hp.map Prod.fst)).1 h

theorem lookup_of_perm {p q : Params} (h : p.WF) (hp : p.Perm q) (k : GoString) :
    p.lookup k = q.lookup k := by
  apply Option.ext
  intro v
  simp only [Option.mem_def]
  rw [← mem_lookup_iff p h, ← mem_lookup_iff q (Params.WF_of_perm hp h)]
  exact hp.mem_iff

theorem paramStrings_of_perm {p q : Params} (h : p.WF) (hp : p.Perm q) :
    paramStrings p = paramStrings q := by
  unfold paramStrings sortedKeys
  have hk : p.keys.Perm q.keys := hp.map Prod.fst
  rw [sortStrings_congr hk]
  apply List.map_congr_left
  intro k _
  simp only [Params.get, lookup_of_perm h hp k]

theorem Params.delete_perm {p q : Params} (hp : p.Perm q) (k : GoString) :
    (p.delete k).Perm (q.delete k) := hp.filter _

theorem Params.delete_delete (p : Params) (k : GoString) : (p.delete k).delete k = p.delete k :=
  Params.delete_of_not_mem _ _ (fun h => ((Params.mem_keys_delete p k k).1 h).1 rfl)


/-! ## Properties of `generateOAuthSignature` -/

set_option maxRecDepth 100000 in
/-- C1: for a parameter map without `oauth_signature`, the signature base string
built by `generateOAuthSignature` (for any method string, an uppercase one in particular)
is `Method + "&" + QueryEscape(baseURL) + "&" + QueryEscape(P)`, where `P` joins with `&`
the pairs `QueryEscape(k) + "=" + QueryEscape(v)` over the keys in ascending byte order;
the signature is computed over that string; and on the example of the specification the
base string is the literal given there. -/
theorem baseString_spec (o : OAuth) (params : Params) (baseURL : GoString)
    (hno : ascii "oauth_signature" ∉ params.keys) :
    ((sortStrings params.keys).Perm params.keys ∧ (sortStrings params.keys).Sorted StrLE) ∧
    o.baseString (params.delete (ascii "oauth_signature")) baseURL =
      o.Method ++ ascii "&" ++ QueryEscape baseURL ++ ascii "&" ++
        QueryEscape (stringsJoin
          ((sortStrings params.keys).map
            (fun k => QueryEscape k ++ ascii "=" ++ QueryEscape (params.get k)))
          (ascii "&")) ∧
    (o.generateOAuthSignature params baseURL).1 =
      base64Std (hmacSHA256 o.signingKey
        (o.Method ++ ascii "&" ++ QueryEscape baseURL ++ ascii "&" ++
          QueryEscape (stringsJoin
            ((sortStrings params.keys).map
              (fun k => QueryEscape k ++ ascii "=" ++ QueryEscape (params.get k)))
            (ascii "&")))) ∧
    (NewOAuth (ascii "https://example.com/wp-json/wc/v3/products") (ascii "ck_test")
        (ascii "cs_test") (ascii "wc/v3") (ascii "GET") 1700000000).baseString
      (Params.delete
        [(ascii "oauth_consumer_key", ascii "ck_test"),
         (ascii "oauth_timestamp", ascii "1700000000"),
         (ascii "oauth_nonce", ascii "00000000000000000000000000000000"),
         (ascii "oauth_signature_method", ascii "HMAC-SHA256")]
        (ascii "oauth_signature"))
      (ascii "https://example.com/wp-json/wc/v3/products") =
      ascii ("GET&https%3A%2F%2Fexample.com%2Fwp-json%2Fwc%2Fv3%2Fproducts&" ++
        "oauth_consumer_key%3Dck_test%26oauth_nonce%3D00000000000000000000000000000000" ++
        "%26oauth_signature_method%3DHMAC-SHA256%26oauth_timestamp%3D1700000000") := by
  have hdel : params.delete (ascii "oauth_signature") = params :=
    Params.delete_of_not_mem _ _ hno
  refine ⟨⟨sortStrings_perm _, sortStrings_sorted _⟩, ?_, ?_, by decide⟩
  · rw [hdel]; rfl
  · unfold OAuth.generateOAuthSignature
    simp only [hdel]
    rfl

theorem baseString_spec_witness :
    ascii "oauth_signature" ∉
        Params.keys [(ascii "page", ascii "2"), (ascii "oauth_nonce", ascii "00")] ∧
      (NewOAuth [] [] (ascii "cs") (ascii "wc/v3") (ascii "GET") 0).baseString
        (Params.delete [(ascii "page", ascii "2"), (ascii "oauth_nonce", ascii "00")]
          (ascii "oauth_signature")) (ascii "http://a/b") =
        ascii "GET&http%3A%2F%2Fa%2Fb&oauth_nonce%3D00%26page%3D2" :=
  ⟨by decide,
    ((baseString_spec (NewOAuth [] [] (ascii "cs") (ascii "wc/v3") (ascii "GET") 0)
      [(ascii "page", ascii "2"), (ascii "oauth_nonce", ascii "00")] (ascii "http://a/b")
      (by decide)).2.1).trans (by decide)⟩

/-- C3: the signature does not depend on a prior `oauth_signature`: with the key set to
`s1`, set to `s2` or removed, `generateOAuthSignature` returns the same signature (and
leaves the same map); the sorted key list it builds the parameter string from does not
hold `oauth_signature`, and no pair of the parameter string starts with
`oauth_signature=`. -/
theorem generateOAuthSignature_ignores_prior_signature (o : OAuth) (baseURL : GoString)
    (p : Params) (s1 s2 : GoString) :
    o.generateOAuthSignature (p.set (ascii "oauth_signature") s1) baseURL =
        o.generateOAuthSignature (p.set (ascii "oauth_signature") s2) baseURL ∧
      o.generateOAuthSignature (p.set (ascii "oauth_signature") s1) baseURL =
        o.generateOAuthSignature (p.delete (ascii "oauth_signature")) baseURL ∧
      o.generateOAuthSignature p baseURL =
        o.generateOAuthSignature (p.delete (ascii "oauth_signature")) baseURL ∧
      ascii "oauth_signature" ∉ sortedKeys (o.generateOAuthSignature p baseURL).2 ∧
      ∀ x ∈ paramStrings (o.generateOAuthSignature p baseURL).2,
        ¬ (ascii "oauth_signature=" <+: x) := by
  have hset : ∀ s, o.generateOAuthSignature (p.set (ascii "oauth_signature") s) baseURL =
      o.generateOAuthSignature (p.delete (ascii "oauth_signature")) baseURL := by
    intro s
    unfold OAuth.generateOAuthSignature
    simp only [Params.delete_set, Params.delete_delete]
  have hkey : ascii "oauth_signature" ∉
      sortedKeys (o.generateOAuthSignature p baseURL).2 := by
    unfold sortedKeys OAuth.generateOAuthSignature
    rw [mem_sortStrings]
    exact fun h => ((Params.mem_keys_delete p _ _).1 h).1 rfl
  refine ⟨(hset s1).trans (hset s2).symm, hset s1, ?_, hkey, ?_⟩
  · unfold OAuth.generateOAuthSignature
    simp only [Params.delete_delete]
  · intro x hx hpre
    unfold paramStrings at hx
    obtain ⟨k, hk, rfl⟩ := List.mem_map.1 hx
    have hlit : ascii "oauth_signature=" = ascii "oauth_signature" ++ [61] := by decide
    rw [hlit] at hpre
    have := key_of_pair_start (ascii "oauth_signature") k _ (by decide) (by decide)
      (by decide) hpre
    exact hkey (this ▸ hk)

/-- C4: the order in which the entries of the parameter map are enumerated does not
matter: for two enumerations of one key-unique parameter set, `generateOAuthSignature`
builds the same parameter string and the same base string and returns the same
signature; the keys it joins are in ascending byte order. -/
theorem generateOAuthSignature_perm (o : OAuth) (baseURL : GoString) (p1 p2 : Params)
    (hwf : p1.WF) (hperm : p1.Perm p2) :
    paramString (p1.delete (ascii "oauth_signature")) =
        paramString (p2.delete (ascii "oauth_signature")) ∧
      o.baseString (p1.delete (ascii "oauth_signature")) baseURL =
        o.baseString (p2.delete (ascii "oauth_signature")) baseURL ∧
      (o.generateOAuthSignature p1 baseURL).1 = (o.generateOAuthSignature p2 baseURL).1 ∧
      (sortedKeys (p1.delete (ascii "oauth_signature"))).Sorted StrLE ∧
      sortedKeys (p1.delete (ascii "oauth_signature")) =
        sortedKeys (p2.delete (ascii "oauth_signature")) := by
  have hps : paramStrings (p1.delete (ascii "oauth_signature")) =
      paramStrings (p2.delete (ascii "oauth_signature")) :=
    paramStrings_of_perm (Params.WF_delete _ _ hwf) (Params.delete_perm hperm _)
  have hstr : paramString (p1.delete (ascii "oauth_signature")) =
      paramString (p2.delete (ascii "oauth_signature")) := by
    unfold paramString; rw [hps]
  have hbase : o.baseString (p1.delete (ascii "oauth_signature")) baseURL =
      o.baseString (p2.delete (ascii "oauth_signature")) baseURL := by
    unfold OAuth.baseString; rw [hstr]
  refine ⟨hstr, hbase, ?_, sortStrings_sorted _, ?_⟩
  · unfold OAuth.generateOAuthSignature
    simp only [hbase]
  · exact sortStrings_congr ((Params.delete_perm hperm _).map Prod.fst)

theorem generateOAuthSignature_perm_witness :
    Params.WF [(ascii "b", ascii "2"), (ascii "a", ascii "1")] ∧
      List.Perm [(ascii "b", ascii "2"), (ascii "a", ascii "1")]
        [(ascii "a", ascii "1"), (ascii "b", ascii "2")] ∧
      paramString (Params.delete [(ascii "b", ascii "2"), (ascii "a", ascii "1")]
        (ascii "oauth_signature")) = ascii "a=1&b=2" ∧
      paramString (Params.delete [(ascii "a", ascii "1"), (ascii "b", ascii "2")]
        (ascii "oauth_signature")) = ascii "a=1&b=2" :=
  ⟨by decide, by decide,
    ((generateOAuthSignature_perm (NewOAuth [] [] [] [] [] 0) []
      [(ascii "b", ascii "2"), (ascii "a", ascii "1")]
      [(ascii "a", ascii "1"), (ascii "b", ascii "2")] (by decide) (by decide)).1).trans
      (by decide),
    by decide⟩

set_option maxRecDepth 1000000 in
/-- C5: the value `generateOAuthSignature` returns is the padded standard Base64
encoding of HMAC-SHA256 of the base string under the signing key, and the signing key is
the bare `ConsumerSecret` when `Version` is `"v1"` or `"v2"` and `ConsumerSecret` followed
by the byte `&` for every other version (for `"wc/v3"`, `"wc/v1"`, `"V1"` and `""` in
particular); on the example of the specification, key `cs_test&`, the signature is
`fQD7KkeGeDf6uNiEQZairfjv6hYEWC0XzYIaKI/a5Ug=`. -/
theorem generateOAuthSignature_is_base64_hmac (o : OAuth) (params : Params)
    (baseURL : GoString) :
    (o.generateOAuthSignature params baseURL).1 =
        base64Std (hmacSHA256
          (if o.Version = ascii "v1" ∨ o.Version = ascii "v2" then o.ConsumerSecret
            else o.ConsumerSecret ++ ascii "&")
          (o.baseString (params.delete (ascii "oauth_signature")) baseURL)) ∧
      (∀ v ∈ [ascii "wc/v3", ascii "wc/v1", ascii "V1", ascii ""],
        OAuth.signingKey { o with Version := v } = o.ConsumerSecret ++ ascii "&") ∧
      (∀ v ∈ [ascii "v1", ascii "v2"],
        OAuth.signingKey { o with Version := v } = o.ConsumerSecret) ∧
      ((NewOAuth (ascii "https://example.com/wp-json/wc/v3/products") (ascii "ck_test")
          (ascii "cs_test") (ascii "wc/v3") (ascii "GET") 1700000000).generateOAuthSignature
        [(ascii "oauth_consumer_key", ascii "ck_test"),
         (ascii "oauth_timestamp", ascii "1700000000"),
         (ascii "oauth_nonce", ascii "00000000000000000000000000000000"),
         (ascii "oauth_signature_method", ascii "HMAC-SHA256")]
        (ascii "https://example.com/wp-json/wc/v3/products")).1 =
        ascii "fQD7KkeGeDf6uNiEQZairfjv6hYEWC0XzYIaKI/a5Ug=" := by
  refine ⟨?_, ?_, ?_, by decide⟩
  · unfold OAuth.generateOAuthSignature OAuth.signingKey
    by_cases h1 : o.Version = ascii "v1"
    · simp [h1]
    · by_cases h2 : o.Version = ascii "v2"
      · simp [h2]
      · have h38 : ascii "&" = [38] := by decide
        simp [h1, h2, h38]
  · intro v hv
    simp only [List.mem_cons, List.mem_singleton, List.not_mem_nil, or_false] at hv
    unfold OAuth.signingKey
    rcases hv with rfl | rfl | rfl | rfl <;> simp [ascii]
  · intro v hv
    simp only [List.mem_cons, List.mem_singleton, List.not_mem_nil, or_false] at hv
    unfold OAuth.signingKey
    rcases hv with rfl | rfl <;> simp [ascii]


/-! ## The nonce -/

theorem sprintfHex_map_of_lt (l : List Nat) (rnd : Nat → Nat) (h : ∀ i ∈ l, rnd i < 10) :
    sprintfHex (l.map (fun i => rnd i % 256)) = l.flatMap (fun i => [48, 48 + rnd i]) := by
  induction l with
  | nil => rfl
  | cons a l ih =>
    have ha : rnd a < 10 := h a (List.mem_cons_self a l)
    have ih' := ih (fun i hi => h i (List.mem_cons_of_mem a hi))
    unfold sprintfHex at ih' ⊢
    simp only [List.map_cons, List.flatMap_cons, ih']
    have h1 : rnd a % 256 / 16 = 0 := by omega
    have h2 : rnd a % 256 % 16 = rnd a := by omega
    have h3 : lowerhex 0 = 48 := by decide
    have h4 : lowerhex (rnd a) = 48 + rnd a := by
      unfold lowerhex
      rw [if_pos (by omega)]
      omega
    rw [h1, h2, h3, h4]

theorem length_flatMap_pair (l : List Nat) (f g : Nat → Nat) :
    (l.flatMap (fun i => [f i, g i])).length = 2 * l.length := by
  induction l with
  | nil => rfl
  | cons a l ih => simp only [List.flatMap_cons, List.length_append, ih, List.length_cons,
      List.length_nil]; omega

/-- C9: for every outcome of the random source with each draw in `0..9`,
`generateNonce` returns the lowercase two-digit hexadecimal rendering of 32 bytes in
`0..9`: 32 groups `0d` with `d` the decimal digit of the draw, a string of length 64
made of hex digit characters. -/
theorem generateNonce_spec (o : OAuth) (rnd : Nat → Nat) (h : ∀ i, i < 32 → rnd i < 10) :
    o.generateNonce rnd = (List.range 32).flatMap (fun i => [48, 48 + rnd i]) ∧
      (o.generateNonce rnd).length = 64 ∧
      ∀ c ∈ o.generateNonce rnd, 48 ≤ c ∧ c ≤ 57 := by
  have heq : o.generateNonce rnd = (List.range 32).flatMap (fun i => [48, 48 + rnd i]) := by
    unfold OAuth.generateNonce
    exact sprintfHex_map_of_lt _ rnd (fun i hi => h i (List.mem_range.1 hi))
  refine ⟨heq, ?_, ?_⟩
  · rw [heq, length_flatMap_pair]; rfl
  · intro c hc
    rw [heq, List.mem_flatMap] at hc
    obtain ⟨i, hi, hci⟩ := hc
    have := h i (List.mem_range.1 hi)
    simp only [List.mem_cons, List.mem_singleton, List.not_mem_nil, or_false] at hci
    rcases hci with rfl | rfl <;> omega

theorem generateNonce_spec_witness :
    (∀ i, i < 32 → (fun j => j % 10) i < 10) ∧
      (NewOAuth [] [] [] [] [] 0).generateNonce (fun j => j % 10) =
        ascii "0001020304050607080900010203040506070809000102030405060708090001" :=
  ⟨fun i _ => Nat.mod_lt i (by decide),
    ((generateNonce_spec (NewOAuth [] [] [] [] [] 0) (fun j => j % 10)
      (fun i _ => Nat.mod_lt i (by decide))).1).trans (by decide)⟩

/-! ## The endpoint URL -/

theorem hasSuffix_slash_iff (s : GoString) :
    hasSuffix s (ascii "/") = true ↔ s.getLast? = some 47 := by
  have h47 : ascii "/" = [47] := by decide
  unfold hasSuffix
  rw [h47, List.isSuffixOf_iff_suffix]
  constructor
  · rintro ⟨t, rfl⟩
    simp
  · intro h
    obtain ⟨t, rfl⟩ : ∃ t, s = t ++ [47] := by
      rcases List.eq_nil_or_concat s with rfl | ⟨t, b, rfl⟩
      · simp at h
      · refine ⟨t, ?_⟩
        simp at h
        simp [h]
    exact ⟨t, rfl⟩

/-- C10: `getURL` returns `U + seg + "/" + Version + "/" + endpoint`, where `U` is the
client's URL with `/` appended exactly when it does not end in `/` and `seg` is `wc-api`
when `WPAPI` is true and `wp-json` when it is false; it stores `U` in the client's URL
and changes no other field; a second call with the same endpoint returns the same string
and leaves the client as it is; for a client built by `NewAPI` the result is
`U + "wc-api/wc/v3/" + endpoint`. -/
theorem getURL_spec (api : API) (endpoint : GoString) :
    (api.getURL endpoint).1 =
        (if api.URL.getLast? = some 47 then api.URL else api.URL ++ ascii "/") ++
          (if api.WPAPI = true then ascii "wc-api" else ascii "wp-json") ++ ascii "/" ++
          api.Version ++ ascii "/" ++ endpoint ∧
      (api.getURL endpoint).2 =
        { api with URL := if api.URL.getLast? = some 47 then api.URL else api.URL ++ ascii "/" } ∧
      (api.getURL endpoint).2.getURL endpoint = api.getURL endpoint ∧
      ∀ url consumerKey consumerSecret : GoString,
        ((NewAPI url consumerKey consumerSecret).getURL endpoint).1 =
          (if url.getLast? = some 47 then url else url ++ ascii "/") ++
            ascii "wc-api/wc/v3/" ++ endpoint := by
  have key : ∀ a : API, a.getURL endpoint =
      ((if a.URL.getLast? = some 47 then a.URL else a.URL ++ ascii "/") ++
          (if a.WPAPI = true then ascii "wc-api" else ascii "wp-json") ++ ascii "/" ++
          a.Version ++ ascii "/" ++ endpoint,
        { a with URL := if a.URL.getLast? = some 47 then a.URL else a.URL ++ ascii "/" }) := by
    intro a
    obtain ⟨u, ck, cs, w, v, ssl, t, vs, q, ua⟩ := a
    unfold API.getURL
    by_cases hs : u.getLast? = some 47
    · have hs' := (hasSuffix_slash_iff u).2 hs
      cases w <;> simp [hs, hs']
    · have hs' : hasSuffix u (ascii "/") = false := by
        rw [Bool.eq_false_iff]
        exact fun hc => hs ((hasSuffix_slash_iff u).1 hc)
      cases w <;> simp [hs, hs']
  have hlast : (if api.URL.getLast? = some 47 then api.URL else api.URL ++ ascii "/").getLast?
      = some 47 := by
    split
    · assumption
    · have h47 : ascii "/" = [47] := by decide
      rw [h47]; simp
  refine ⟨by rw [key], by rw [key], ?_, ?_⟩
  · rw [key api, key]
    simp only [hlast, if_true]
  · intro url ck cs
    rw [key]
    have hlit : ascii "wc-api/wc/v3/" = ascii "wc-api" ++ ascii "/" ++ ascii "wc/v3" ++ ascii "/" := by
      decide
    simp [NewAPI, hlit]


/-! ## Unparseable URLs -/

/-- C6, counterexample: `url.Parse` rejects `://example.com` (missing protocol scheme)
and `GetOAuthURL` returns the empty string there, not an error value. -/
theorem GetOAuthURL_unparseable_returns_empty :
    urlParse (ascii "://example.com") = none ∧
      (NewOAuth (ascii "://example.com") (ascii "ck_test") (ascii "cs_test") (ascii "wc/v3")
        (ascii "GET") 1700000000).GetOAuthURL (fun _ => 0) = [] := by
  decide

/-- C6, amended: `GetOAuthURL` has no error result; it returns the empty string exactly
for the URLs that `url.Parse` rejects, and a string with a `?` in it exactly for the URLs
that parse, so the empty result tells the two apart and no truncated URL is returned. -/
theorem GetOAuthURL_empty_iff_unparseable (o : OAuth) (rnd : Nat → Nat) :
    (o.GetOAuthURL rnd = [] ↔ urlParse o.URL = none) ∧
      (63 ∈ o.GetOAuthURL rnd ↔ (urlParse o.URL).isSome = true) := by
  unfold OAuth.GetOAuthURL
  cases h : urlParse o.URL with
  | none => simp
  | some u =>
    have h63 : ascii "?" = [63] := by decide
    simp [h63]

/-! ## The authentication mode -/

set_option maxRecDepth 1000000 in
/-- C8, the code at the failing input: a client built by `NewAPI` with an `https` URL
(`isSSL` is true, the field `IsSSL` is false) sends a `GET` through the OAuth-signed
branch, with no `Authorization` header; and a client whose field `IsSSL` is set while its
URL is `http` (`isSSL` is false) sends the Basic `Authorization` header to that URL. -/
theorem request_ignores_isSSL :
    (NewAPI (ascii "https://example.com") (ascii "ck") (ascii "cs")).isSSL = true ∧
      (NewAPI (ascii "https://example.com") (ascii "ck") (ascii "cs")).IsSSL = false ∧
      ((NewAPI (ascii "https://example.com") (ascii "ck") (ascii "cs")).Get (ascii "products") []
          1700000000 (fun _ => 7)).req =
        some
          { Method := ascii "GET",
            URL := ascii ("https://example.com/wc-api/wc/v3/products?oauth_consumer_key=ck" ++
              "&oauth_nonce=0707070707070707070707070707070707070707070707070707070707070707" ++
              "&oauth_signature=Had1Iby6nc8HAHQy1Tru%2Fhz6pq1cbwe4lArdZfiZV%2FQ%3D" ++
              "&oauth_signature_method=HMAC-SHA256&oauth_timestamp=1700000000"),
            Body := some [],
            Header := [(ascii "User-Agent", ascii "WooCommerce-Go-REST-API/3.0.0"),
              (ascii "Accept", ascii "application/json")] } ∧
      API.isSSL { NewAPI (ascii "http://example.com") (ascii "ck") (ascii "cs") with
        IsSSL := true } = false ∧
      (API.Get { NewAPI (ascii "http://example.com") (ascii "ck") (ascii "cs") with
          IsSSL := true } (ascii "products") [] 1700000000 (fun _ => 7)).req =
        some
          { Method := ascii "GET",
            URL := ascii "http://example.com/wc-api/wc/v3/products",
            Body := some [],
            Header := [(ascii "Authorization", ascii "Basic Y2s6Y3M="),
              (ascii "User-Agent", ascii "WooCommerce-Go-REST-API/3.0.0"),
              (ascii "Accept", ascii "application/json")] } := by
  decide


/-! ## The query string of the signed URL -/

theorem stringsJoin_cons_cons (a b : GoString) (rest : List GoString) (sep : GoString) :
    stringsJoin (a :: b :: rest) sep = stringsJoin ((a ++ sep ++ b) :: rest) sep := by
  cases rest with
  | nil => simp [stringsJoin]
  | cons c r => simp [stringsJoin, List.append_assoc]

theorem encode_buffer_eq_join (acc : GoString) (pieces : List GoString) (hacc : acc ≠ []) :
    pieces.foldl
        (fun buf piece => if buf.length > 0 then buf ++ ascii "&" ++ piece else buf ++ piece) acc =
      stringsJoin (acc :: pieces) (ascii "&") := by
  induction pieces generalizing acc with
  | nil => simp [stringsJoin]
  | cons p ps ih =>
    have hlen : acc.length > 0 := List.length_pos.2 hacc
    rw [List.foldl_cons, if_pos hlen, stringsJoin_cons_cons]
    apply ih
    simp [hacc]

theorem encode_pieces_eq_join (pieces : List GoString) (h : ∀ p ∈ pieces, p ≠ []) :
    pieces.foldl
        (fun buf piece => if buf.length > 0 then buf ++ ascii "&" ++ piece else buf ++ piece) [] =
      stringsJoin pieces (ascii "&") := by
  cases pieces with
  | nil => rfl
  | cons p ps =>
    rw [List.foldl_cons]
    simp only [List.length_nil, gt_iff_lt, Nat.lt_irrefl, if_false, List.nil_append]
    exact encode_buffer_eq_join p ps (h p (List.mem_cons_self p ps))

theorem Values.any_key_mem (m : Values) (k : GoString) :
    m.any (fun e => e.1 == k) = true ↔ k ∈ m.keys := by
  simp [Values.keys]

theorem Values.Set_of_not_mem (m : Values) (k v : GoString) (h : k ∉ m.keys) :
    m.Set k v = m ++ [(k, [v])] := by
  unfold Values.Set
  rw [if_neg (fun hc => h ((Values.any_key_mem m k).1 hc))]

/-- The loop `for key, value := range params { query.Set(key, value) }`. -/
theorem foldl_Set_eq (params : Params) (acc : Values) (hwf : params.WF)
    (hdis : ∀ k ∈ params.keys, k ∉ acc.keys) :
    params.foldl (fun q kv => q.Set kv.1 kv.2) acc =
      acc ++ params.map (fun kv => (kv.1, [kv.2])) := by
  induction params generalizing acc with
  | nil => simp
  | cons e ps ih =>
    obtain ⟨a, b⟩ := e
    have hnd : a ∉ Params.keys ps ∧ (Params.keys ps).Nodup := by
      simpa [Params.WF, Params.keys] using hwf
    have ha : a ∉ acc.keys := hdis a (by simp [Params.keys])
    rw [List.foldl_cons, Values.Set_of_not_mem acc a b ha, ih _ hnd.2]
    · simp
    · intro k hk
      have hk' : k ∉ acc.keys := hdis k (by
        simp only [Params.keys, List.map_cons, List.mem_cons]
        exact Or.inr hk)
      simp only [Values.keys, List.map_append, List.map_cons, List.map_nil, List.mem_append,
        List.mem_singleton, not_or]
      refine ⟨hk', ?_⟩
      rintro rfl
      exact hnd.1 hk

theorem get_map_singleton (params : Params) (k : GoString) (hk : k ∈ params.keys) :
    Values.get (params.map (fun kv => (kv.1, [kv.2]))) k = [params.get k] := by
  induction params with
  | nil => simp [Params.keys] at hk
  | cons e ps ih =>
    obtain ⟨a, b⟩ := e
    unfold Values.get Params.get at ih ⊢
    rw [List.map_cons, lookup_cons_eq, lookup_cons_eq]
    by_cases h : k = a
    · simp [h]
    · simp only [h, if_false]
      apply ih
      simpa [Params.keys, h] using hk

theorem pair_ne_nil (a b : GoString) : a ++ ascii "=" ++ b ≠ [] := by
  have h61 : ascii "=" = [61] := by decide
  simp [h61]

/-- The method `Encode` on the values built from a map: the pairs in ascending key
order, joined with `&`. -/
theorem Encode_of_params (params : Params) (hwf : params.WF) :
    Values.Encode (params.foldl (fun q kv => q.Set kv.1 kv.2) []) =
      stringsJoin (paramStrings params) (ascii "&") := by
  rw [foldl_Set_eq params [] hwf (by simp [Values.keys])]
  unfold Values.Encode
  have hkeys : Values.keys ([] ++ params.map (fun kv => (kv.1, [kv.2]))) = params.keys := by
    simp [Values.keys, Params.keys, Function.comp_def]
  rw [hkeys]
  have hpieces : (sortStrings params.keys).flatMap
      (fun k => (Values.get ([] ++ params.map (fun kv => (kv.1, [kv.2]))) k).map
        (fun x => QueryEscape k ++ ascii "=" ++ QueryEscape x)) = paramStrings params := by
    unfold paramStrings sortedKeys
    generalize hl : sortStrings params.keys = l
    have hmem : ∀ k ∈ l, k ∈ params.keys := fun k hk => by
      rw [← hl] at hk; exact mem_sortStrings.1 hk
    clear hl
    induction l with
    | nil => rfl
    | cons k l ih =>
      rw [List.flatMap_cons, List.map_cons, ih (fun x hx => hmem x (List.mem_cons_of_mem k hx))]
      rw [List.nil_append, get_map_singleton params k (hmem k (List.mem_cons_self k l))]
      rfl
  rw [hpieces]
  apply encode_pieces_eq_join
  intro p hp
  unfold paramStrings at hp
  obtain ⟨k, _, rfl⟩ := List.mem_map.1 hp
  exact pair_ne_nil _ _

theorem unsignedParams_WF (o : OAuth) (rnd : Nat → Nat) (u : URL) :
    (o.unsignedParams rnd u).WF := by
  unfold OAuth.unsignedParams
  refine Params.WF_set _ _ _ (Params.WF_set _ _ _ (Params.WF_set _ _ _
    (Params.WF_set _ _ _ ?_)))
  generalize URL.Query u = q
  have : ∀ (init : Params), init.WF →
      (q.foldl (fun p kv => p.set kv.1 (kv.2.headD [])) init).WF := by
    induction q with
    | nil => exact fun init h => h
    | cons e q ih => exact fun init h => ih _ (Params.WF_set _ _ _ h)
  exact this [] Params.WF_nil

theorem signedParams_WF (o : OAuth) (rnd : Nat → Nat) (u : URL) :
    (o.signedParams rnd u).WF := by
  unfold OAuth.signedParams OAuth.generateOAuthSignature
  exact Params.WF_set _ _ _ (Params.WF_delete _ _ (unsignedParams_WF o rnd u))

/-- The value of `GetOAuthURL` on a URL that parses. -/
theorem GetOAuthURL_eq (o : OAuth) (rnd : Nat → Nat) (u : URL) (h : urlParse o.URL = some u) :
    o.GetOAuthURL rnd =
      cutBefore 63 o.URL ++ ascii "?" ++
        stringsJoin (paramStrings (o.signedParams rnd u)) (ascii "&") := by
  unfold OAuth.GetOAuthURL
  rw [h]
  simp only
  rw [Encode_of_params _ (signedParams_WF o rnd u)]


theorem filter_sortStrings (l : List GoString) (p : GoString → Bool) :
    (sortStrings l).filter p = sortStrings (l.filter p) :=
  (sortStrings_unique ((sortStrings_perm l).filter p)
    (List.Pairwise.filter p (sortStrings_sorted l))).symm

theorem signature_pair_prefix_iff (k v : GoString) :
    (ascii "oauth_signature=").isPrefixOf (QueryEscape k ++ ascii "=" ++ v) = true ↔
      k = ascii "oauth_signature" := by
  rw [List.isPrefixOf_iff_prefix]
  have hlit : ascii "oauth_signature=" = ascii "oauth_signature" ++ [61] := by decide
  constructor
  · intro h
    rw [hlit] at h
    exact key_of_pair_start (ascii "oauth_signature") k v (by decide) (by decide) (by decide) h
  · rintro rfl
    have hesc : QueryEscape (ascii "oauth_signature") = ascii "oauth_signature" := by decide
    have h61 : ascii "=" = [61] := by decide
    rw [hesc, hlit, h61]
    exact List.prefix_append _ _

theorem signedParams_eq (o : OAuth) (rnd : Nat → Nat) (u : URL) :
    o.signedParams rnd u =
      ((o.unsignedParams rnd u).delete (ascii "oauth_signature")).set (ascii "oauth_signature")
        (base64Std (hmacSHA256 o.signingKey
          (o.baseString ((o.unsignedParams rnd u).delete (ascii "oauth_signature"))
            (cutBefore 63 o.URL)))) := rfl

/-! ## Parsing the signed URL again -/

theorem parse_eq_parseRest (rawURL scheme0 rest0 : GoString)
    (hctl : stringContainsCTLByte rawURL = false) (hstar : rawURL ≠ ascii "*")
    (hs : getScheme rawURL = some (scheme0, rest0)) :
    parse rawURL =
      parseRest (toLower scheme0)
        (if (hasSuffix rest0 (ascii "?") && rest0.count 63 == 1) = true
          then rest0.take (rest0.length - 1) else cutBefore 63 rest0)
        (hasSuffix rest0 (ascii "?") && rest0.count 63 == 1)
        (if (hasSuffix rest0 (ascii "?") && rest0.count 63 == 1) = true
          then [] else cutAfter 63 rest0) := by
  unfold parse parseRest
  rw [hctl, if_neg (by simp), if_neg hstar, hs]

theorem parseRest_congr (scheme rest : GoString) (fq fq' : Bool) (rq rq' : GoString) (u : URL)
    (h : parseRest scheme rest fq rq = some u) :
    parseRest scheme rest fq' rq' =
      some { u with ForceQuery := fq', RawQuery := rq', Fragment := [] } := by
  unfold parseRest at h ⊢
  split
  · rename_i c1
    rw [if_pos c1] at h
    cases h
    rfl
  · rename_i c1
    rw [if_neg c1] at h
    split
    · rename_i c2
      rw [if_pos c2] at h
      cases h
    · rename_i c2
      rw [if_neg c2] at h
      split
      · rename_i c3
        rw [if_pos c3] at h
        cases ha : parseAuthority (cutBefore 47 (List.drop 2 rest)) with
        | none => rw [ha] at h; cases h
        | some host =>
          rw [ha] at h
          cases hp : unescape Encoding.encodePath
              (List.drop (cutBefore 47 (List.drop 2 rest)).length (List.drop 2 rest)) with
          | none => rw [hp] at h; cases h
          | some path =>
            rw [hp] at h
            cases h
            rfl
      · rename_i c3
        rw [if_neg c3] at h
        cases hp : unescape Encoding.encodePath rest with
        | none => rw [hp] at h; cases h
        | some path =>
          rw [hp] at h
          cases h
          rfl

theorem getSchemeFrom_append (P B X : GoString) (h63 : 63 ∉ B) :
    getSchemeFrom (P ++ B ++ 63 :: X) P.length (B ++ 63 :: X) =
      (getSchemeFrom (P ++ B) P.length B).map (fun p => (p.1, p.2 ++ 63 :: X)) := by
  induction B generalizing P with
  | nil => simp [getSchemeFrom]
  | cons c cs ih =>
    simp only [List.mem_cons, not_or] at h63
    have hstep : getSchemeFrom (P ++ c :: cs ++ 63 :: X) (P.length + 1) (cs ++ 63 :: X) =
        (getSchemeFrom (P ++ c :: cs) (P.length + 1) cs).map (fun p => (p.1, p.2 ++ 63 :: X)) := by
      have := ih (P ++ [c]) h63.2
      simpa [List.append_assoc] using this
    have htake1 : (P ++ c :: cs ++ 63 :: X).take P.length = P := by
      rw [List.append_assoc, List.take_left']
      rfl
    have htake2 : (P ++ c :: cs).take P.length = P := List.take_left' rfl
    rw [List.cons_append]
    unfold getSchemeFrom
    split
    · exact hstep
    · split
      · split
        · simp
        · exact hstep
      · split
        · split
          · rfl
          · simp [htake1, htake2]
        · simp

theorem getScheme_append (B X : GoString) (h63 : 63 ∉ B) :
    getScheme (B ++ 63 :: X) = (getScheme B).map (fun p => (p.1, p.2 ++ 63 :: X)) := by
  have := getSchemeFrom_append [] B X h63
  simpa [getScheme] using this

theorem getSchemeFrom_rest (raw : GoString) (i : Nat) (cs sch rest : GoString)
    (h : getSchemeFrom raw i cs = some (sch, rest)) : rest = raw ∨ rest <:+ cs := by
  induction cs generalizing i with
  | nil =>
    simp only [getSchemeFrom, Option.some.injEq, Prod.mk.injEq] at h
    exact Or.inl h.2.symm
  | cons c cs ih =>
    unfold getSchemeFrom at h
    split at h
    · rcases ih _ h with h1 | h1
      · exact Or.inl h1
      · exact Or.inr (h1.trans (List.suffix_cons c cs))
    · split at h
      · split at h
        · simp only [Option.some.injEq, Prod.mk.injEq] at h
          exact Or.inl h.2.symm
        · rcases ih _ h with h1 | h1
          · exact Or.inl h1
          · exact Or.inr (h1.trans (List.suffix_cons c cs))
      · split at h
        · split at h
          · cases h
          · simp only [Option.some.injEq, Prod.mk.injEq] at h
            exact Or.inr (h.2 ▸ List.suffix_cons c cs)
        · simp only [Option.some.injEq, Prod.mk.injEq] at h
          exact Or.inl h.2.symm

theorem getScheme_rest_not_mem (B sch rest : GoString) (c : Nat) (hc : c ∉ B)
    (h : getScheme B = some (sch, rest)) : c ∉ rest := by
  rcases getSchemeFrom_rest B 0 B sch rest h with h1 | h1
  · rw [h1]; exact hc
  · exact fun hm => hc (h1.subset hm)

theorem cut_decomp (c : Nat) (s : GoString) :
    s = cutBefore c s ∨ s = cutBefore c s ++ c :: cutAfter c s := by
  induction s with
  | nil => left; rfl
  | cons a s ih =>
    by_cases ha : a = c
    · right
      subst ha
      simp [cutBefore, cutAfter]
    · have hne : (a != c) = true := by simpa using ha
      have e1 : cutBefore c (a :: s) = a :: cutBefore c s := by
        simp [cutBefore, List.takeWhile_cons, hne]
      have e2 : cutAfter c (a :: s) = cutAfter c s := by
        simp [cutAfter, List.dropWhile_cons, hne]
      rw [e1, e2]
      rcases ih with h | h
      · left; rw [← h]
      · right; rw [List.cons_append, ← h]

theorem cutBefore_of_not_mem (c : Nat) (s : GoString) (h : c ∉ s) : cutBefore c s = s := by
  unfold cutBefore
  rw [List.takeWhile_eq_self_iff]
  intro a ha
  simp only [bne_iff_ne, ne_eq]
  rintro rfl
  exact h ha

theorem cutAfter_of_not_mem (c : Nat) (s : GoString) (h : c ∉ s) : cutAfter c s = [] := by
  unfold cutAfter
  have : s.dropWhile (fun x => x != c) = [] := by
    rw [List.dropWhile_eq_nil_iff]
    intro a ha
    simp only [bne_iff_ne, ne_eq]
    rintro rfl
    exact h ha
  rw [this]
  rfl

theorem cutBefore_append_of_not_mem (c : Nat) (a x : GoString) (h : c ∉ a) :
    cutBefore c (a ++ x) = a ++ cutBefore c x := by
  induction a with
  | nil => rfl
  | cons b bs ih =>
    simp only [List.mem_cons, not_or] at h
    have hb : (b != c) = true := by simpa using fun e => h.1 e.symm
    have ih' := ih h.2
    unfold cutBefore at ih' ⊢
    rw [List.cons_append, List.takeWhile_cons, hb, if_pos rfl, ih']
    rfl

theorem hasSuffix_byte_false_of_not_mem (s : GoString) (c : Nat) (h : c ∉ s) :
    hasSuffix s [c] = false := by
  rw [Bool.eq_false_iff]
  intro hc
  unfold hasSuffix at hc
  rw [List.isSuffixOf_iff_suffix] at hc
  exact h (hc.subset (List.mem_singleton_self c))

theorem hasSuffix_byte_false_of_append (a x : GoString) (c : Nat) (hx : x ≠ []) (h : c ∉ x) :
    hasSuffix (a ++ x) [c] = false := by
  rw [Bool.eq_false_iff]
  intro hc
  unfold hasSuffix at hc
  rw [List.isSuffixOf_iff_suffix] at hc
  obtain ⟨t, ht⟩ := hc
  rcases List.eq_nil_or_concat x with rfl | ⟨x', l, rfl⟩
  · exact hx rfl
  · rw [List.concat_eq_append] at ht h
    rw [← List.append_assoc] at ht
    have := List.append_inj_right' ht rfl
    simp only [List.cons.injEq, and_true] at this
    exact h (by simp [this])

/-- The rest that `parse` keeps of `restB ++ "?" ++ Y`, whichever way the query is split
off, is `restB`. -/
theorem parse_rest_of_append (restB Y : GoString) (h63 : 63 ∉ restB) :
    (if (hasSuffix (restB ++ 63 :: Y) (ascii "?") && (restB ++ 63 :: Y).count 63 == 1) = true
      then (restB ++ 63 :: Y).take ((restB ++ 63 :: Y).length - 1)
      else cutBefore 63 (restB ++ 63 :: Y)) = restB := by
  split
  · rename_i hfq
    simp only [Bool.and_eq_true, beq_iff_eq] at hfq
    have hcount : List.count 63 Y = 0 := by
      have h0 : List.count 63 restB = 0 := List.count_eq_zero.2 h63
      have := hfq.2
      rw [List.count_append, List.count_cons_self, h0] at this
      omega
    have hY : Y = [] := by
      by_contra hne
      have h63 : ascii "?" = [63] := by decide
      have hf := hasSuffix_byte_false_of_append (restB ++ [63]) Y 63 hne
        (List.count_eq_zero.1 hcount)
      rw [List.append_assoc, List.singleton_append, ← h63, hfq.1] at hf
      cases hf
    subst hY
    simp
  · exact cutBefore_append 63 restB Y h63

theorem parseRest_star (fq : Bool) (rq : GoString) :
    parseRest [] (ascii "*") fq rq = some ⟨[], [], [], ascii "*", fq, rq, []⟩ := by
  unfold parseRest
  rw [if_neg (by decide), if_neg (by decide), if_neg (by decide)]
  have : unescape .encodePath (ascii "*") = some (ascii "*") := by decide
  rw [this]
  rfl

theorem stringContainsCTLByte_false_of_parse (s : GoString) (u : URL) (h : parse s = some u) :
    stringContainsCTLByte s = false := by
  unfold parse at h
  cases hc : stringContainsCTLByte s with
  | false => rfl
  | true => rw [hc, if_pos rfl] at h; cases h

/-- Parsing a URL again with its query replaced: when `s` parses, so does the part of `s`
before its first `?` followed by `?` and a non-empty query `Q` without `?`, `#` and
control bytes, with the same scheme, host and path and with `RawQuery = Q`. -/
theorem parse_with_query (s Q : GoString) (u0 : URL) (hp : parse s = some u0)
    (hQ : Q ≠ []) (hQ63 : 63 ∉ Q) (hQctl : stringContainsCTLByte Q = false) :
    parse (cutBefore 63 s ++ 63 :: Q) =
      some { u0 with ForceQuery := false, RawQuery := Q, Fragment := [] } := by
  have hctl := stringContainsCTLByte_false_of_parse s u0 hp
  have hB63 : 63 ∉ cutBefore 63 s := not_mem_cutBefore 63 s
  -- the scheme of the part before the query, and the rest that `parse` keeps
  have key : ∃ sch restB, getScheme (cutBefore 63 s) = some (sch, restB) ∧ 63 ∉ restB ∧
      parseRest (toLower sch) restB false Q =
        some { u0 with ForceQuery := false, RawQuery := Q, Fragment := [] } := by
    by_cases hstar : s = ascii "*"
    · subst hstar
      refine ⟨[], ascii "*", by decide, by decide, ?_⟩
      have hu : u0 = ⟨[], [], [], ascii "*", false, [], []⟩ := by
        have : parse (ascii "*") = some ⟨[], [], [], ascii "*", false, [], []⟩ := by decide
        rw [this] at hp
        cases hp
        rfl
      subst hu
      have h1 : toLower [] = [] := rfl
      rw [h1, parseRest_star]
    · cases hs : getScheme s with
      | none =>
        unfold parse at hp
        rw [hctl, if_neg (by simp), if_neg hstar, hs] at hp
        cases hp
      | some p =>
        obtain ⟨sch, r0⟩ := p
        have hpr := parse_eq_parseRest s sch r0 hctl hstar hs
        rw [hp] at hpr
        rcases cut_decomp 63 s with hd | hd
        · -- no `?` in `s`
          have hs63 : 63 ∉ s := by rw [hd]; exact hB63
          have hr63 : 63 ∉ r0 := getScheme_rest_not_mem s sch r0 63 hs63 hs
          have h63 : ascii "?" = [63] := by decide
          have hfq : (hasSuffix r0 (ascii "?") && r0.count 63 == 1) = false := by
            rw [h63, hasSuffix_byte_false_of_not_mem r0 63 hr63]
            rfl
          rw [hfq] at hpr
          simp only [Bool.false_eq_true, if_false] at hpr
          rw [cutBefore_of_not_mem 63 r0 hr63] at hpr
          refine ⟨sch, r0, by rw [← hd]; exact hs, hr63, ?_⟩
          exact parseRest_congr _ _ _ _ _ _ u0 hpr.symm
        · -- `s` is the part before the first `?`, a `?` and the rest
          have hsB := getScheme_append (cutBefore 63 s) (cutAfter 63 s) hB63
          rw [← hd, hs] at hsB
          cases hsb : getScheme (cutBefore 63 s) with
          | none => rw [hsb] at hsB; cases hsB
          | some q =>
            obtain ⟨sch', restB⟩ := q
            rw [hsb] at hsB
            simp only [Option.map_some', Option.some.injEq, Prod.mk.injEq] at hsB
            obtain ⟨rfl, rfl⟩ := hsB
            have hr63 : 63 ∉ restB := getScheme_rest_not_mem _ _ _ 63 hB63 hsb
            rw [parse_rest_of_append restB _ hr63] at hpr
            exact ⟨sch, restB, rfl, hr63, parseRest_congr _ _ _ _ _ _ u0 hpr.symm⟩
  obtain ⟨sch, restB, hsb, hr63, hrest⟩ := key
  have hs' : getScheme (cutBefore 63 s ++ 63 :: Q) = some (sch, restB ++ 63 :: Q) := by
    rw [getScheme_append _ _ hB63, hsb]
    rfl
  have hctl' : stringContainsCTLByte (cutBefore 63 s ++ 63 :: Q) = false := by
    have hpre : stringContainsCTLByte (cutBefore 63 s) = false := by
      rw [Bool.eq_false_iff]
      intro hc
      unfold stringContainsCTLByte at hc hctl
      rw [List.any_eq_true] at hc
      obtain ⟨b, hb, hb'⟩ := hc
      have : s.any (fun b => decide (b < 32) || b == 127) = true :=
        List.any_eq_true.2 ⟨b, (List.takeWhile_prefix _).subset hb, hb'⟩
      rw [hctl] at this
      cases this
    unfold stringContainsCTLByte at hpre hQctl ⊢
    rw [List.any_append, hpre, List.any_cons, hQctl]
    rfl
  have hstar' : cutBefore 63 s ++ 63 :: Q ≠ ascii "*" := by
    intro hc
    have : 63 ∈ ascii "*" := by rw [← hc]; simp
    revert this
    decide
  rw [parse_eq_parseRest _ sch _ hctl' hstar' hs']
  have h63 : ascii "?" = [63] := by decide
  have hfq : (hasSuffix (restB ++ 63 :: Q) (ascii "?") && (restB ++ 63 :: Q).count 63 == 1)
      = false := by
    have := hasSuffix_byte_false_of_append (restB ++ [63]) Q 63 hQ hQ63
    rw [List.append_assoc, List.singleton_append] at this
    rw [h63, this]
    rfl
  rw [hfq]
  simp only [Bool.false_eq_true, if_false]
  rw [cutBefore_append 63 restB Q hr63, cutAfter_append 63 restB Q hr63]
  exact hrest

theorem cutBefore_cutBefore_of_not_mem (s : GoString) (h : 35 ∉ cutBefore 63 s) :
    cutBefore 63 (cutBefore 35 s) = cutBefore 63 s := by
  rcases cut_decomp 63 s with hd | hd
  · have h35 : 35 ∉ s := by rw [hd]; exact h
    rw [cutBefore_of_not_mem 35 s h35]
  · have e : cutBefore 35 s = cutBefore 63 s ++ 63 :: cutBefore 35 (cutAfter 63 s) := by
      conv_lhs => rw [hd]
      rw [cutBefore_append_of_not_mem 35 _ _ h]
      have : cutBefore 35 (63 :: cutAfter 63 s) = 63 :: cutBefore 35 (cutAfter 63 s) := by
        simp [cutBefore, List.takeWhile_cons]
      rw [this]
    rw [e, cutBefore_append 63 _ _ (not_mem_cutBefore 63 s)]

/-- Parsing the signed URL: when `s` parses and has no `#` before its first `?`, the
part of `s` before the first `?` followed by `?` and a non-empty query `Q` without `?`,
`#` and control bytes parses too, with `RawQuery = Q` and no fragment. -/
theorem urlParse_with_query (s Q : GoString) (u : URL) (h : urlParse s = some u)
    (hfrag : 35 ∉ cutBefore 63 s) (hQ : Q ≠ []) (hQ63 : 63 ∉ Q) (hQ35 : 35 ∉ Q)
    (hQctl : stringContainsCTLByte Q = false) :
    urlParse (cutBefore 63 s ++ 63 :: Q) =
      some { u with ForceQuery := false, RawQuery := Q, Fragment := [] } := by
  have h35 : 35 ∉ cutBefore 63 s ++ 63 :: Q := by
    simp only [List.mem_append, List.mem_cons, not_or]
    exact ⟨hfrag, by decide, hQ35⟩
  unfold urlParse at h ⊢
  rw [cutBefore_of_not_mem 35 _ h35, cutAfter_of_not_mem 35 _ h35]
  cases hp : parse (cutBefore 35 s) with
  | none => rw [hp] at h; cases h
  | some u0 =>
    have hq := parse_with_query (cutBefore 35 s) Q u0 hp hQ hQ63 hQctl
    rw [cutBefore_cutBefore_of_not_mem s hfrag] at hq
    rw [hq]
    rw [hp] at h
    simp only at h
    split at h
    · cases h; rfl
    · cases hf : unescape Encoding.encodeFragment (cutAfter 35 s) with
      | none => rw [hf] at h; cases h
      | some frag =>
        rw [hf] at h
        cases h
        rfl

theorem upperhex_bounds (n : Nat) : 37 ≤ upperhex n ∧ upperhex n ≤ 126 ∧ upperhex n ≠ 63 := by
  unfold upperhex
  split <;> omega

theorem unreserved_of_not_shouldEscape (c : Nat)
    (h : shouldEscape c .encodeQueryComponent = false) : 37 ≤ c ∧ c ≤ 126 ∧ c ≠ 63 := by
  unfold shouldEscape at h
  split at h
  · rename_i ha
    simp only [isAlnum, Bool.or_eq_true, Bool.and_eq_true, decide_eq_true_eq] at ha
    omega
  · split at h
    · rename_i hm
      exact absurd hm.1 (by decide)
    · split at h
      · rename_i hm
        simp only [List.mem_cons, List.mem_singleton, List.not_mem_nil, or_false] at hm
        omega
      · split at h
        · simp at h
        · split at h
          · rename_i hm
            exact absurd hm.1 (by decide)
          · cases h

/-- The bytes of an escaped string: none is `?`, `#`, `&`, `=` or a control byte. -/
theorem QueryEscape_bytes (s : GoString) :
    ∀ c ∈ QueryEscape s, 37 ≤ c ∧ c ≤ 126 ∧ c ≠ 63 := by
  induction s with
  | nil => simp [QueryEscape]
  | cons a s ih =>
    intro c hc
    unfold QueryEscape at hc
    split at hc
    · rcases List.mem_cons.1 hc with rfl | hc
      · omega
      · exact ih c hc
    · split at hc
      · simp only [List.mem_cons] at hc
        rcases hc with rfl | rfl | rfl | hc
        · omega
        · exact upperhex_bounds _
        · exact upperhex_bounds _
        · exact ih c hc
      · rename_i hne
        rcases List.mem_cons.1 hc with rfl | hc
        · exact unreserved_of_not_shouldEscape c (by simpa using hne)
        · exact ih c hc

theorem mem_stringsJoin (l : List GoString) (sep : GoString) (c : Nat)
    (h : c ∈ stringsJoin l sep) : c ∈ sep ∨ ∃ x ∈ l, c ∈ x := by
  induction l with
  | nil => simp [stringsJoin] at h
  | cons a l ih =>
    cases l with
    | nil =>
      simp only [stringsJoin] at h
      exact Or.inr ⟨a, List.mem_singleton_self a, h⟩
    | cons b rest =>
      simp only [stringsJoin, List.mem_append] at h
      rcases h with (h | h) | h
      · exact Or.inr ⟨a, List.mem_cons_self _ _, h⟩
      · exact Or.inl h
      · rcases ih h with h1 | ⟨x, hx, hcx⟩
        · exact Or.inl h1
        · exact Or.inr ⟨x, List.mem_cons_of_mem _ hx, hcx⟩

/-- The bytes of a parameter string or an encoded query. -/
theorem paramString_bytes (p : Params) :
    ∀ c ∈ stringsJoin (paramStrings p) (ascii "&"), 37 ≤ c ∧ c ≤ 126 ∧ c ≠ 63 := by
  intro c hc
  rcases mem_stringsJoin _ _ c hc with h | ⟨x, hx, hcx⟩
  · have : c = 38 := by
      have h38 : ascii "&" = [38] := by decide
      rw [h38] at h
      simpa using h
    omega
  · unfold paramStrings at hx
    obtain ⟨k, _, rfl⟩ := List.mem_map.1 hx
    have h61 : ascii "=" = [61] := by decide
    rw [h61] at hcx
    simp only [List.mem_append, List.mem_singleton] at hcx
    rcases hcx with (h | h) | h
    · exact QueryEscape_bytes k c h
    · omega
    · exact QueryEscape_bytes _ c h

theorem stringsJoin_ne_nil (a : GoString) (l : List GoString) (sep : GoString) (ha : a ≠ []) :
    stringsJoin (a :: l) sep ≠ [] := by
  cases l with
  | nil => simpa [stringsJoin] using ha
  | cons b rest => simp [stringsJoin, ha]

theorem paramString_ne_nil (p : Params) (k : GoString) (hk : k ∈ p.keys) :
    stringsJoin (paramStrings p) (ascii "&") ≠ [] := by
  unfold paramStrings sortedKeys
  have hmem : k ∈ sortStrings p.keys := mem_sortStrings.2 hk
  cases hl : sortStrings p.keys with
  | nil => rw [hl] at hmem; cases hmem
  | cons a l =>
    rw [List.map_cons]
    exact stringsJoin_ne_nil _ _ _ (pair_ne_nil _ _)

/-- C7, amended: for a URL that parses and has no `#` before its first `?`, the URL
`GetOAuthURL` returns parses again and its query string (`RawQuery`, the text after its
first `?`) is the `&`-join of `QueryEscape(k) + "=" + QueryEscape(v)` over the final
parameter set in ascending key order; dropping its `oauth_signature` pair, of which
there is exactly one, leaves the list of pairs, and so the parameter string, that was
signed, in the same order and encoding; and the value of `oauth_signature` is the
signature over that string. -/
theorem GetOAuthURL_query_matches_signed_string (o : OAuth) (rnd : Nat → Nat) (u : URL)
    (h : urlParse o.URL = some u) (hfrag : 35 ∉ cutBefore 63 o.URL) :
    urlParse (o.GetOAuthURL rnd) =
        some { u with
          ForceQuery := false,
          RawQuery := stringsJoin
            ((sortStrings (o.signedParams rnd u).keys).map
              (fun k => QueryEscape k ++ ascii "=" ++
                QueryEscape ((o.signedParams rnd u).get k)))
            (ascii "&"),
          Fragment := [] } ∧
      cutAfter 63 (o.GetOAuthURL rnd) =
        stringsJoin
          ((sortStrings (o.signedParams rnd u).keys).map
            (fun k => QueryEscape k ++ ascii "=" ++ QueryEscape ((o.signedParams rnd u).get k)))
          (ascii "&") ∧
      (sortStrings (o.signedParams rnd u).keys).Sorted StrLE ∧
      ((sortStrings (o.signedParams rnd u).keys).map
          (fun k => QueryEscape k ++ ascii "=" ++
            QueryEscape ((o.signedParams rnd u).get k))).filter
          (fun x => !(ascii "oauth_signature=").isPrefixOf x) =
        paramStrings (o.generateOAuthSignature (o.unsignedParams rnd u) (cutBefore 63 o.URL)).2 ∧
      stringsJoin
          (((sortStrings (o.signedParams rnd u).keys).map
            (fun k => QueryEscape k ++ ascii "=" ++
              QueryEscape ((o.signedParams rnd u).get k))).filter
            (fun x => !(ascii "oauth_signature=").isPrefixOf x))
          (ascii "&") =
        paramString (o.generateOAuthSignature (o.unsignedParams rnd u) (cutBefore 63 o.URL)).2 ∧
      ((sortStrings (o.signedParams rnd u).keys).map
          (fun k => QueryEscape k ++ ascii "=" ++
            QueryEscape ((o.signedParams rnd u).get k))).countP
          (fun x => (ascii "oauth_signature=").isPrefixOf x) = 1 ∧
      (o.signedParams rnd u).get (ascii "oauth_signature") =
        base64Std (hmacSHA256 o.signingKey
          (o.Method ++ ascii "&" ++ QueryEscape (cutBefore 63 o.URL) ++ ascii "&" ++
            QueryEscape (stringsJoin
              (paramStrings
                (o.generateOAuthSignature (o.unsignedParams rnd u) (cutBefore 63 o.URL)).2)
              (ascii "&")))) := by
  have hU : (o.generateOAuthSignature (o.unsignedParams rnd u) (cutBefore 63 o.URL)).2 =
      (o.unsignedParams rnd u).delete (ascii "oauth_signature") := rfl
  rw [hU, signedParams_eq]
  generalize hUdef : (o.unsignedParams rnd u).delete (ascii "oauth_signature") = U
  generalize hS : base64Std (hmacSHA256 o.signingKey (o.baseString U (cutBefore 63 o.URL))) = S
  have hUwf : U.WF := hUdef ▸ Params.WF_delete _ _ (unsignedParams_WF o rnd u)
  have hsig : ascii "oauth_signature" ∉ U.keys := by
    rw [← hUdef]
    exact fun hc => ((Params.mem_keys_delete _ _ _).1 hc).1 rfl
  have hkeys : (U.set (ascii "oauth_signature") S).keys = U.keys ++ [ascii "oauth_signature"] :=
    Params.keys_set_of_not_mem U _ S hsig
  have hFwf : (U.set (ascii "oauth_signature") S).WF := Params.WF_set _ _ _ hUwf
  have hq : cutAfter 63 (o.GetOAuthURL rnd) =
      stringsJoin (paramStrings (U.set (ascii "oauth_signature") S)) (ascii "&") := by
    rw [GetOAuthURL_eq o rnd u h, signedParams_eq, hUdef, hS]
    have h63 : ascii "?" = [63] := by decide
    rw [h63, List.append_assoc, List.singleton_append]
    exact cutAfter_append 63 _ _ (not_mem_cutBefore 63 _)
  have hpred : ∀ k : GoString,
      (!(ascii "oauth_signature=").isPrefixOf (QueryEscape k ++ ascii "=" ++
        QueryEscape ((U.set (ascii "oauth_signature") S).get k))) =
        (k != ascii "oauth_signature") := by
    intro k
    rw [Bool.eq_iff_iff]
    simp only [Bool.not_eq_true', bne_iff_ne, ne_eq, ← Bool.not_eq_true]
    exact not_congr (signature_pair_prefix_iff k _)
  have hfilter : (U.keys ++ [ascii "oauth_signature"]).filter
      (fun k => k != ascii "oauth_signature") = U.keys := by
    rw [List.filter_append]
    have h1 : U.keys.filter (fun k => k != ascii "oauth_signature") = U.keys := by
      rw [List.filter_eq_self]
      intro k hk
      simp only [bne_iff_ne, ne_eq]
      rintro rfl
      exact hsig hk
    rw [h1]
    simp
  have hlist : ((sortStrings (U.set (ascii "oauth_signature") S).keys).map
      (fun k => QueryEscape k ++ ascii "=" ++
        QueryEscape ((U.set (ascii "oauth_signature") S).get k))).filter
      (fun x => !(ascii "oauth_signature=").isPrefixOf x) = paramStrings U := by
    rw [List.filter_map]
    have hcomp : ((fun x => !(ascii "oauth_signature=").isPrefixOf x) ∘
        (fun k => QueryEscape k ++ ascii "=" ++
          QueryEscape ((U.set (ascii "oauth_signature") S).get k))) =
        (fun k => k != ascii "oauth_signature") := funext hpred
    rw [hcomp, filter_sortStrings, hkeys, hfilter]
    unfold paramStrings sortedKeys
    apply List.map_congr_left
    intro k hk
    have hne : k ≠ ascii "oauth_signature" := by
      rintro rfl
      exact hsig (mem_sortStrings.1 hk)
    rw [Params.get_set, if_neg hne]
  have hparse : urlParse (o.GetOAuthURL rnd) =
      some { u with
        ForceQuery := false,
        RawQuery := stringsJoin (paramStrings (U.set (ascii "oauth_signature") S)) (ascii "&"),
        Fragment := [] } := by
    have hr : o.GetOAuthURL rnd = cutBefore 63 o.URL ++
        63 :: stringsJoin (paramStrings (U.set (ascii "oauth_signature") S)) (ascii "&") := by
      rw [GetOAuthURL_eq o rnd u h, signedParams_eq, hUdef, hS]
      have h63 : ascii "?" = [63] := by decide
      rw [h63, List.append_assoc, List.singleton_append]
    have hbytes := paramString_bytes (U.set (ascii "oauth_signature") S)
    rw [hr]
    refine urlParse_with_query o.URL _ u h hfrag
      (paramString_ne_nil _ (ascii "oauth_signature") (by rw [hkeys]; simp)) ?_ ?_ ?_
    · exact fun hc => (hbytes 63 hc).2.2 rfl
    · intro hc
      have := (hbytes 35 hc).1
      omega
    · rw [Bool.eq_false_iff]
      intro hc
      unfold stringContainsCTLByte at hc
      obtain ⟨b, hb, hb'⟩ := List.any_eq_true.1 hc
      have := hbytes b hb
      simp only [Bool.or_eq_true, decide_eq_true_eq, beq_iff_eq] at hb'
      omega
  refine ⟨hparse, hq, sortStrings_sorted _, hlist, by rw [hlist]; rfl, ?_, ?_⟩
  · rw [List.countP_map]
    have hcomp : ((fun x => (ascii "oauth_signature=").isPrefixOf x) ∘
        (fun k => QueryEscape k ++ ascii "=" ++
          QueryEscape ((U.set (ascii "oauth_signature") S).get k))) =
        (fun k => decide (k = ascii "oauth_signature")) := by
      funext k
      rw [Bool.eq_iff_iff]
      simp only [Function.comp_apply, decide_eq_true_eq]
      exact signature_pair_prefix_iff k _
    rw [hcomp, List.countP_eq_length_filter, filter_sortStrings, hkeys,
      (sortStrings_perm _).length_eq, List.filter_append]
    have h1 : U.keys.filter (fun k => decide (k = ascii "oauth_signature")) = [] := by
      rw [List.filter_eq_nil_iff]
      intro k hk
      simp only [decide_eq_true_eq]
      rintro rfl
      exact hsig hk
    rw [h1]
    simp
  · rw [Params.get_set, if_pos rfl, ← hS]
    rfl


set_option maxRecDepth 1000000 in
theorem GetOAuthURL_query_matches_signed_string_witness :
    urlParse (NewOAuth (ascii "http://example.com/p?b=2&a=1#top") (ascii "ck") (ascii "cs")
        (ascii "wc/v3") (ascii "GET") 1700000000).URL =
        some ⟨ascii "http", [], ascii "example.com", ascii "/p", false, ascii "b=2&a=1",
          ascii "top"⟩ ∧
      35 ∉ cutBefore 63 (NewOAuth (ascii "http://example.com/p?b=2&a=1#top") (ascii "ck")
        (ascii "cs") (ascii "wc/v3") (ascii "GET") 1700000000).URL ∧
      urlParse ((NewOAuth (ascii "http://example.com/p?b=2&a=1#top") (ascii "ck") (ascii "cs")
        (ascii "wc/v3") (ascii "GET") 1700000000).GetOAuthURL (fun _ => 7)) =
        some ⟨ascii "http", [], ascii "example.com", ascii "/p", false,
          ascii ("a=1&b=2&oauth_consumer_key=ck" ++
            "&oauth_nonce=0707070707070707070707070707070707070707070707070707070707070707" ++
            "&oauth_signature=hU2dgb%2FzxkbSPeUBpgh0pkmM6gj5pn700KUPu3X3uWs%3D" ++
            "&oauth_signature_method=HMAC-SHA256&oauth_timestamp=1700000000"), []⟩ :=
  ⟨by decide, by decide,
    ((GetOAuthURL_query_matches_signed_string
      (NewOAuth (ascii "http://example.com/p?b=2&a=1#top") (ascii "ck") (ascii "cs")
        (ascii "wc/v3") (ascii "GET") 1700000000) (fun _ => 7)
      ⟨ascii "http", [], ascii "example.com", ascii "/p", false, ascii "b=2&a=1", ascii "top"⟩
      (by decide) (by decide)).1).trans (by decide)⟩

set_option maxRecDepth 1000000 in
/-- C7, counterexample: `http://example.com/p#frag` parses, and the URL `GetOAuthURL`
returns for it is `http://example.com/p#frag?oauth_consumer_key=...`; that URL parses
with an empty query string, the parameters being part of its fragment, while the join
of the pairs over the final parameter set is not empty. -/
theorem GetOAuthURL_fragment_swallows_query :
    urlParse (NewOAuth (ascii "http://example.com/p#frag") (ascii "ck") (ascii "cs")
        (ascii "wc/v3") (ascii "GET") 1700000000).URL =
        some ⟨ascii "http", [], ascii "example.com", ascii "/p", false, [], ascii "frag"⟩ ∧
      (NewOAuth (ascii "http://example.com/p#frag") (ascii "ck") (ascii "cs")
        (ascii "wc/v3") (ascii "GET") 1700000000).GetOAuthURL (fun _ => 7) =
        ascii ("http://example.com/p#frag?oauth_consumer_key=ck" ++
          "&oauth_nonce=0707070707070707070707070707070707070707070707070707070707070707" ++
          "&oauth_signature=M89IE%2FLBXG2XNDbLPc%2Ftt93jXdSUCkzKq0wghsigLJY%3D" ++
          "&oauth_signature_method=HMAC-SHA256&oauth_timestamp=1700000000") ∧
      (urlParse (ascii ("http://example.com/p#frag?oauth_consumer_key=ck" ++
          "&oauth_nonce=0707070707070707070707070707070707070707070707070707070707070707" ++
          "&oauth_signature=M89IE%2FLBXG2XNDbLPc%2Ftt93jXdSUCkzKq0wghsigLJY%3D" ++
          "&oauth_signature_method=HMAC-SHA256&oauth_timestamp=1700000000"))).map
          (fun v => v.RawQuery) = some [] ∧
      stringsJoin
          ((sortStrings (OAuth.signedParams (NewOAuth (ascii "http://example.com/p#frag")
              (ascii "ck") (ascii "cs") (ascii "wc/v3") (ascii "GET") 1700000000) (fun _ => 7)
              ⟨ascii "http", [], ascii "example.com", ascii "/p", false, [],
                ascii "frag"⟩).keys).map
            (fun k => QueryEscape k ++ ascii "=" ++
              QueryEscape ((OAuth.signedParams (NewOAuth (ascii "http://example.com/p#frag")
                (ascii "ck") (ascii "cs") (ascii "wc/v3") (ascii "GET") 1700000000)
                (fun _ => 7)
                ⟨ascii "http", [], ascii "example.com", ascii "/p", false, [],
                  ascii "frag"⟩).get k)))
          (ascii "&") ≠ [] := by
  refine ⟨by decide, by decide, by decide, ?_⟩
  exact paramString_ne_nil _ (ascii "oauth_signature")
    ((Params.mem_keys_set _ _ _ _).2 (Or.inl rfl))

/-! ## The parameter set of the signed URL -/

theorem Values.keys_append (m : Values) (k v : GoString) :
    (m.append k v).keys = if k ∈ m.keys then m.keys else m.keys ++ [k] := by
  unfold Values.append
  by_cases h : k ∈ m.keys
  · rw [if_pos ((Values.any_key_mem m k).2 h), if_pos h]
    simp only [Values.keys, List.map_map]
    apply List.map_congr_left
    intro e _
    by_cases he : e.1 = k <;> simp [he]
  · rw [if_neg (fun hc => h ((Values.any_key_mem m k).1 hc)), if_neg h]
    simp [Values.keys]

theorem Values.nodup_keys_append (m : Values) (k v : GoString) (h : m.keys.Nodup) :
    (m.append k v).keys.Nodup := by
  rw [Values.keys_append]
  split
  · exact h
  · rename_i hk
    exact List.Nodup.append h (List.nodup_singleton k) (by simpa using hk)

theorem parseQuery_keys_nodup (query : GoString) : (parseQuery query).keys.Nodup := by
  unfold parseQuery
  generalize splitByte 38 query = pieces
  have : ∀ acc : Values, acc.keys.Nodup →
      (pieces.foldl
        (fun m piece =>
          if 59 ∈ piece then m
          else if piece = [] then m
          else
            match QueryUnescape (cutBefore 61 piece) with
            | none => m
            | some key =>
              match QueryUnescape (cutAfter 61 piece) with
              | none => m
              | some value => m.append key value) acc).keys.Nodup := by
    induction pieces with
    | nil => exact fun acc h => h
    | cons p ps ih =>
      intro acc h
      rw [List.foldl_cons]
      apply ih
      split
      · exact h
      · split
        · exact h
        · split
          · exact h
          · split
            · exact h
            · exact Values.nodup_keys_append _ _ _ h
  exact this [] List.nodup_nil

/-- The loop `for key, value := range urlParts.Query() { params[key] = value[0] }`. -/
theorem lookup_foldl_set (q : Values) (hq : q.keys.Nodup) (init : Params) (k : GoString) :
    (q.foldl (fun p kv => p.set kv.1 (kv.2.headD [])) init).lookup k =
      match q.lookup k with
      | some values => some (values.headD [])
      | none => init.lookup k := by
  induction q generalizing init with
  | nil => rfl
  | cons e q ih =>
    obtain ⟨a, b⟩ := e
    have hnd : a ∉ Values.keys q ∧ (Values.keys q).Nodup := by
      simpa [Values.keys] using hq
    rw [List.foldl_cons, ih hnd.2, lookup_cons_eq, Params.lookup_set]
    by_cases hk : k = a
    · subst hk
      have hnone : List.lookup k q = none := (lookup_eq_none_iff_not_mem k q).2 hnd.1
      simp [hnone]
    · simp [hk]

theorem lookup_unsignedParams_delete (o : OAuth) (rnd : Nat → Nat) (u : URL) (k : GoString) :
    ((o.unsignedParams rnd u).delete (ascii "oauth_signature")).lookup k =
      expectedParam o rnd u k := by
  unfold expectedParam OAuth.unsignedParams
  simp only [Params.lookup_delete, Params.lookup_set,
    lookup_foldl_set _ (parseQuery_keys_nodup u.RawQuery), URL.Query]
  by_cases h0 : k = ascii "oauth_signature"
  · simp [h0]
  by_cases h1 : k = ascii "oauth_consumer_key"
  · subst h1
    have e1 : ¬ ascii "oauth_consumer_key" = ascii "oauth_signature" := by decide
    have e2 : ¬ ascii "oauth_consumer_key" = ascii "oauth_signature_method" := by decide
    have e3 : ¬ ascii "oauth_consumer_key" = ascii "oauth_nonce" := by decide
    have e4 : ¬ ascii "oauth_consumer_key" = ascii "oauth_timestamp" := by decide
    simp only [e1, e2, e3, e4, if_false, if_true]
  by_cases h2 : k = ascii "oauth_timestamp"
  · subst h2
    have e1 : ¬ ascii "oauth_timestamp" = ascii "oauth_signature" := by decide
    have e2 : ¬ ascii "oauth_timestamp" = ascii "oauth_signature_method" := by decide
    have e3 : ¬ ascii "oauth_timestamp" = ascii "oauth_nonce" := by decide
    have e4 : ¬ ascii "oauth_timestamp" = ascii "oauth_consumer_key" := by decide
    simp only [e1, e2, e3, e4, if_false, if_true]
  by_cases h3 : k = ascii "oauth_nonce"
  · subst h3
    have e1 : ¬ ascii "oauth_nonce" = ascii "oauth_signature" := by decide
    have e2 : ¬ ascii "oauth_nonce" = ascii "oauth_signature_method" := by decide
    have e3 : ¬ ascii "oauth_nonce" = ascii "oauth_timestamp" := by decide
    have e4 : ¬ ascii "oauth_nonce" = ascii "oauth_consumer_key" := by decide
    simp only [e1, e2, e3, e4, if_false, if_true]
  by_cases h4 : k = ascii "oauth_signature_method"
  · subst h4
    have e1 : ¬ ascii "oauth_signature_method" = ascii "oauth_signature" := by decide
    have e2 : ¬ ascii "oauth_signature_method" = ascii "oauth_nonce" := by decide
    have e3 : ¬ ascii "oauth_signature_method" = ascii "oauth_timestamp" := by decide
    have e4 : ¬ ascii "oauth_signature_method" = ascii "oauth_consumer_key" := by decide
    simp only [e1, e2, e3, e4, if_false, if_true]
  simp only [h0, h1, h2, h3, h4, if_false]
  cases List.lookup k (parseQuery u.RawQuery) <;> simp

theorem perm_of_lookup_eq (p q : Params) (hp : p.WF) (hq : q.WF)
    (h : ∀ k, p.lookup k = q.lookup k) : p.Perm q := by
  rw [List.perm_ext_iff_of_nodup (List.Nodup.of_map Prod.fst hp) (List.Nodup.of_map Prod.fst hq)]
  rintro ⟨k, v⟩
  rw [mem_lookup_iff p hp, mem_lookup_iff q hq, h k]

theorem Params.set_perm {p q : Params} (hp : p.WF) (hpq : p.Perm q) (k v : GoString) :
    (p.set k v).Perm (q.set k v) := by
  apply perm_of_lookup_eq _ _ (Params.WF_set _ _ _ hp)
    (Params.WF_set _ _ _ (Params.WF_of_perm hpq hp))
  intro k'
  rw [Params.lookup_set, Params.lookup_set, lookup_of_perm hp hpq k']


/-- C2: for a URL that parses, also one whose query already has keys named like the
OAuth parameters, `GetOAuthURL` returns `S + "?" + Q`: `S` is the part of the URL before
the first `?`; the parameter set is the one of the specification (the query parameters
of the URL with their first value, overridden by the consumer key, the decimal
timestamp, the nonce of this call and `HMAC-SHA256`) plus `oauth_signature`, set to the
signature `generateOAuthSignature` computes over that set without `oauth_signature` and
over `S`; `Q` is the encoding of the whole set.  Such a set exists, and the result is the
same for each of its enumerations. -/
theorem GetOAuthURL_spec (o : OAuth) (rnd : Nat → Nat) (u : URL)
    (h : urlParse o.URL = some u) :
    (∃ E : Params, E.WF ∧ ∀ k, E.lookup k = expectedParam o rnd u k) ∧
      ∀ E : Params, E.WF → (∀ k, E.lookup k = expectedParam o rnd u k) →
        o.GetOAuthURL rnd =
          cutBefore 63 o.URL ++ ascii "?" ++
            stringsJoin
              ((sortStrings
                  (E.set (ascii "oauth_signature")
                    (o.generateOAuthSignature E (cutBefore 63 o.URL)).1).keys).map
                (fun k => QueryEscape k ++ ascii "=" ++
                  QueryEscape
                    ((E.set (ascii "oauth_signature")
                      (o.generateOAuthSignature E (cutBefore 63 o.URL)).1).get k)))
              (ascii "&") := by
  have hUwf : ((o.unsignedParams rnd u).delete (ascii "oauth_signature")).WF :=
    Params.WF_delete _ _ (unsignedParams_WF o rnd u)
  refine ⟨⟨_, hUwf, lookup_unsignedParams_delete o rnd u⟩, ?_⟩
  intro E hE hlook
  have hperm : E.Perm ((o.unsignedParams rnd u).delete (ascii "oauth_signature")) :=
    perm_of_lookup_eq _ _ hE hUwf
      (fun k => (hlook k).trans (lookup_unsignedParams_delete o rnd u k).symm)
  have hdel : E.delete (ascii "oauth_signature") = E := by
    apply Params.delete_of_not_mem
    intro hc
    have hnone : E.lookup (ascii "oauth_signature") = none := by
      rw [hlook]; rfl
    exact (lookup_eq_none_iff_not_mem _ E).1 hnone hc
  have hsig : (o.generateOAuthSignature E (cutBefore 63 o.URL)).1 =
      base64Std (hmacSHA256 o.signingKey
        (o.baseString ((o.unsignedParams rnd u).delete (ascii "oauth_signature"))
          (cutBefore 63 o.URL))) := by
    unfold OAuth.generateOAuthSignature OAuth.baseString paramString
    simp only [hdel]
    rw [paramStrings_of_perm hE hperm]
  rw [GetOAuthURL_eq o rnd u h, signedParams_eq, hsig,
    ← paramStrings_of_perm (Params.WF_set _ _ _ hE) (Params.set_perm hE hperm _ _)]
  rfl

set_option maxRecDepth 1000000 in
theorem GetOAuthURL_spec_witness :
    urlParse (NewOAuth (ascii "http://example.com/p?b=2&oauth_nonce=x&b=3&oauth_signature=y")
        (ascii "ck") (ascii "cs") (ascii "wc/v3") (ascii "GET") 1700000000).URL =
        some ⟨ascii "http", [], ascii "example.com", ascii "/p", false,
          ascii "b=2&oauth_nonce=x&b=3&oauth_signature=y", []⟩ ∧
      (NewOAuth (ascii "http://example.com/p?b=2&oauth_nonce=x&b=3&oauth_signature=y")
        (ascii "ck") (ascii "cs") (ascii "wc/v3") (ascii "GET") 1700000000).GetOAuthURL
          (fun _ => 7) =
        ascii ("http://example.com/p?b=2&oauth_consumer_key=ck" ++
          "&oauth_nonce=0707070707070707070707070707070707070707070707070707070707070707" ++
          "&oauth_signature=PqckyUqjin%2B6ix%2FCGVuaRpHFdM1WQ58pduCvxhXhCY8%3D" ++
          "&oauth_signature_method=HMAC-SHA256&oauth_timestamp=1700000000") :=
  ⟨by decide,
    ((GetOAuthURL_spec
      (NewOAuth (ascii "http://example.com/p?b=2&oauth_nonce=x&b=3&oauth_signature=y")
        (ascii "ck") (ascii "cs") (ascii "wc/v3") (ascii "GET") 1700000000) (fun _ => 7)
      ⟨ascii "http", [], ascii "example.com", ascii "/p", false,
        ascii "b=2&oauth_nonce=x&b=3&oauth_signature=y", []⟩ (by decide)).2
      (Params.delete
        (OAuth.unsignedParams
          (NewOAuth (ascii "http://example.com/p?b=2&oauth_nonce=x&b=3&oauth_signature=y")
            (ascii "ck") (ascii "cs") (ascii "wc/v3") (ascii "GET") 1700000000) (fun _ => 7)
          ⟨ascii "http", [], ascii "example.com", ascii "/p", false,
            ascii "b=2&oauth_nonce=x&b=3&oauth_signature=y", []⟩)
        (ascii "oauth_signature"))
      (by decide)
      (lookup_unsignedParams_delete
        (NewOAuth (ascii "http://example.com/p?b=2&oauth_nonce=x&b=3&oauth_signature=y")
          (ascii "ck") (ascii "cs") (ascii "wc/v3") (ascii "GET") 1700000000) (fun _ => 7)
        ⟨ascii "http", [], ascii "example.com", ascii "/p", false,
          ascii "b=2&oauth_nonce=x&b=3&oauth_signature=y", []⟩)).trans (by decide)⟩

end WooCommerce
